import Mathlib

/-!
Verification of the MAUDE binary-columns automator
(`maude_binary_automator.py`) against its specification.

The development shallowly embeds the script's data model and operations:

* a pandas dataframe becomes `Frame` (ordered association list of columns,
  each a list of optional cells, plus a row count);
* an openpyxl worksheet becomes `Sheet` (cell values, per-cell styles,
  row heights, column widths);
* cell values are `Option Cell` with `none` playing the role of `NaN`;
  styling attribute bundles (font, fill, ...) are opaque string tokens;
* the script's dictionaries are embedded either as ordered association
  lists (where insertion order matters) or as lookup functions (where it
  does not).
-/

namespace Maude

/-! ## Character-level string operations

The script manipulates column names with `str.replace`, `str.startswith`,
`str.lower`, `str.endswith` and the `in` substring test.  These are
embedded over `List Char` so that every proof can proceed by structural
induction. -/

/-- Fuelled worker for `replaceChars`; the fuel (initially the input
length, which never runs out) keeps the recursion structural so that
proofs by `decide` can evaluate it. -/
def replaceCharsAux (old new : List Char) : Nat → List Char → List Char
  | fuel + 1, c :: rest =>
    if old ≠ [] ∧ old.isPrefixOf (c :: rest) then
      new ++ replaceCharsAux old new fuel ((c :: rest).drop old.length)
    else
      c :: replaceCharsAux old new fuel rest
  | _, s => s

/-- Non-overlapping, left-to-right substring replacement on character
lists, mirroring `str.replace` of the source language.  An empty needle
never matches (the source is never called with one). -/
def replaceChars (old new s : List Char) : List Char :=
  replaceCharsAux old new s.length s

theorem replaceCharsAux_fuel {old new : List Char} :
    ∀ f₁ f₂ s, s.length ≤ f₁ → s.length ≤ f₂ →
      replaceCharsAux old new f₁ s = replaceCharsAux old new f₂ s := by
  intro f₁
  induction f₁ with
  | zero =>
    intro f₂ s h₁ _
    have hs : s = [] := List.length_eq_zero.mp (Nat.le_zero.mp h₁)
    subst hs
    cases f₂ <;> rfl
  | succ f ih =>
    intro f₂ s h₁ h₂
    cases s with
    | nil => cases f₂ <;> rfl
    | cons c rest =>
      cases f₂ with
      | zero => simp at h₂
      | succ f₂' =>
        simp only [replaceCharsAux]
        by_cases hc : old ≠ [] ∧ old.isPrefixOf (c :: rest)
        · rw [if_pos hc, if_pos hc]
          have hlen : ((c :: rest).drop old.length).length ≤ f := by
            have : 1 ≤ old.length := List.length_pos.mpr hc.1
            simp only [List.length_drop, List.length_cons]
            simp only [List.length_cons] at h₁
            omega
          have hlen' : ((c :: rest).drop old.length).length ≤ f₂' := by
            have : 1 ≤ old.length := List.length_pos.mpr hc.1
            simp only [List.length_drop, List.length_cons]
            simp only [List.length_cons] at h₂
            omega
          rw [ih _ _ hlen hlen']
        · rw [if_neg hc, if_neg hc]
          have hlen : rest.length ≤ f := by
            simp only [List.length_cons] at h₁; omega
          have hlen' : rest.length ≤ f₂' := by
            simp only [List.length_cons] at h₂; omega
          rw [ih _ _ hlen hlen']

@[simp] theorem replaceChars_nil (old new : List Char) :
    replaceChars old new [] = [] := rfl

theorem replaceChars_cons_pos {old : List Char} (new : List Char) {c : Char}
    {rest : List Char} (h : old ≠ [] ∧ old.isPrefixOf (c :: rest)) :
    replaceChars old new (c :: rest)
      = new ++ replaceChars old new ((c :: rest).drop old.length) := by
  show replaceCharsAux old new (rest.length + 1) (c :: rest) = _
  rw [replaceCharsAux, if_pos h, replaceChars]
  congr 1
  apply replaceCharsAux_fuel
  · have : 1 ≤ old.length := List.length_pos.mpr h.1
    simp only [List.length_drop, List.length_cons]
    omega
  · exact Nat.le_refl _

theorem replaceChars_cons_neg {old : List Char} (new : List Char) {c : Char}
    {rest : List Char} (h : ¬(old ≠ [] ∧ old.isPrefixOf (c :: rest))) :
    replaceChars old new (c :: rest) = c :: replaceChars old new rest := by
  show replaceCharsAux old new (rest.length + 1) (c :: rest) = _
  rw [replaceCharsAux, if_neg h]
  rfl

/-- Substring containment, mirroring the `pat in s` test of the source
language (an empty pattern is contained in every string). -/
def containsChars (pat : List Char) : List Char → Bool
  | [] => pat.isEmpty
  | c :: rest => pat.isPrefixOf (c :: rest) || containsChars pat rest

/-- Test `pat in s` on strings. -/
def strContains (s pat : String) : Bool :=
  containsChars pat.data s.data

/-- Test of a leading marker on strings. -/
def strStarts (s pre : String) : Bool :=
  pre.data.isPrefixOf s.data

/-- Test of a trailing marker on strings. -/
def strEnds (s suf : String) : Bool :=
  suf.data.isSuffixOf s.data

/-- Lower-casing of strings (ASCII case folding, which is all the script's
file names use). -/
def lowerStr (s : String) : String :=
  ⟨s.data.map Char.toLower⟩

/-! ## Cells and dataframes -/

/-- A non-null spreadsheet / dataframe cell value.  The source columns of
a MAUDE sheet hold text; the derived indicator columns hold the integers
0 and 1, which the formatting step distinguishes from text (in the source
language `1 == "1"` is false). -/
inductive Cell where
  | str (s : String)
  | int (n : Nat)
deriving DecidableEq, Repr

/-- Lexicographic comparison of character lists by code point: the order
`sorted(...)` uses on text in the source language. -/
def lexLe : List Char → List Char → Bool
  | [], _ => true
  | _ :: _, [] => false
  | a :: as, b :: bs =>
    if a.toNat < b.toNat then true
    else if b.toNat < a.toNat then false
    else lexLe as bs

theorem lexLe_total : ∀ a b : List Char, lexLe a b = true ∨ lexLe b a = true := by
  intro a
  induction a with
  | nil => intro b; left; rfl
  | cons x xs ih =>
    intro b
    cases b with
    | nil => right; rfl
    | cons y ys =>
      simp only [lexLe]
      rcases Nat.lt_trichotomy x.toNat y.toNat with h | h | h
      · left; rw [if_pos h]
      · rw [if_neg (by omega), if_neg (by omega), if_neg (by omega), if_neg (by omega)]
        exact ih ys
      · right; rw [if_pos h]

theorem lexLe_trans : ∀ a b c : List Char,
    lexLe a b = true → lexLe b c = true → lexLe a c = true := by
  intro a
  induction a with
  | nil => intro b c _ _; rfl
  | cons x xs ih =>
    intro b c hab hbc
    cases b with
    | nil => simp [lexLe] at hab
    | cons y ys =>
      cases c with
      | nil => simp [lexLe] at hbc
      | cons z zs =>
        simp only [lexLe] at hab hbc ⊢
        by_cases hxy : x.toNat < y.toNat
        · by_cases hyz : y.toNat < z.toNat
          · rw [if_pos (by omega)]
          · rw [if_neg hyz] at hbc
            by_cases hzy : z.toNat < y.toNat
            · rw [if_pos hzy] at hbc; exact absurd hbc (by simp)
            · rw [if_pos (by omega)]
        · rw [if_neg hxy] at hab
          by_cases hyx : y.toNat < x.toNat
          · rw [if_pos hyx] at hab; exact absurd hab (by simp)
          · rw [if_neg hyx] at hab
            by_cases hyz : y.toNat < z.toNat
            · rw [if_pos (by omega)]
            · rw [if_neg hyz] at hbc
              by_cases hzy : z.toNat < y.toNat
              · rw [if_pos hzy] at hbc; exact absurd hbc (by simp)
              · rw [if_neg hzy] at hbc
                rw [if_neg (by omega), if_neg (by omega)]
                exact ih ys zs hab hbc

/-- Total order used by `sorted(...)` on the collected distinct values.
Values of one kind compare by their natural order (code-point
lexicographic on text).  The source language raises a `TypeError` when
asked to sort a mixture of text and numbers; the cross-kind cases below
are an arbitrary total completion and no theorem depends on them. -/
def Cell.le : Cell → Cell → Prop
  | .str a, .str b => lexLe a.data b.data = true
  | .int a, .int b => a ≤ b
  | .str _, .int _ => True
  | .int _, .str _ => False

instance : DecidableRel Cell.le
  | .str a, .str b => inferInstanceAs (Decidable (_ = true))
  | .int a, .int b => inferInstanceAs (Decidable (a ≤ b))
  | .str _, .int _ => inferInstanceAs (Decidable True)
  | .int _, .str _ => inferInstanceAs (Decidable False)

instance : IsTotal Cell Cell.le where
  total a b := by
    cases a <;> cases b <;> simp [Cell.le] <;> first
      | exact lexLe_total _ _
      | exact Nat.le_total _ _

instance : IsTrans Cell Cell.le where
  trans a b c hab hbc := by
    cases a <;> cases b <;> cases c <;> simp_all [Cell.le] <;> first
      | exact lexLe_trans _ _ _ hab hbc
      | exact le_trans hab hbc

/-- Whether a cell holds text. -/
def Cell.isStr : Cell → Bool
  | .str _ => true
  | .int _ => false

/-- A pandas dataframe: an ordered list of (column name, column values)
pairs together with the row count.  `none` cells play the role of `NaN`. -/
structure Frame where
  columns : List (String × List (Option Cell))
  nrows : Nat
deriving DecidableEq, Repr

/-- Header names in order, as in `df.columns`. -/
def Frame.colNames (df : Frame) : List String :=
  df.columns.map Prod.fst

/-- Column access `df[c]`: the values of the column named `c` (first match; a missing
column yields the empty list, an access the script never performs). -/
def Frame.getCol (df : Frame) (c : String) : List (Option Cell) :=
  match df.columns.find? (fun p => p.1 == c) with
  | some p => p.2
  | none => []

/-! ## The script's dataframe-level functions -/

/-- The column-name sanitisation applied to a categorical value, from
`create_binary_columns`:
`problem.replace(' ', '_').replace(',', '').replace('(', '').replace(')', '').replace('/', '_')`
(innermost replacement first, exactly as chained in the source). -/
def sanitizeStr (s : String) : String :=
  ⟨replaceChars ['/'] ['_']
    (replaceChars [')'] []
      (replaceChars ['('] []
        (replaceChars [','] []
          (replaceChars [' '] ['_'] s.data))))⟩

/-- Sanitisation of a cell value.  The distinct values of a MAUDE category
column are text; on an `int` cell the source would raise an
`AttributeError` (integers have no `.replace`), aborting the file.  The
model totalises through the decimal rendering; theorems whose meaning
depends on this dead branch carry an all-text hypothesis instead. -/
def sanitizeCell : Cell → String
  | .str s => sanitizeStr s
  | .int n => sanitizeStr (toString n)

/-- The derived indicator column name: category marker followed by the
sanitised value, e.g. `f"Device_..."`. -/
def binaryColName (pfx : String) (v : Cell) : String :=
  pfx ++ sanitizeCell v

/-- Embeds `check_existing_binary_columns(df)`: columns that look like previously
generated indicator columns — they start with one of the three markers and
are not themselves source problem/outcome columns.  The membership test
`col not in [c for c in df.columns if ...]` is kept literally. -/
def check_existing_binary_columns (cols : List String) : List String :=
  cols.filter fun col =>
    (strStarts col "Device_" || strStarts col "Patient_" || strStarts col "Outcome_")
      && !((cols.filter fun c =>
            strContains c "Device Problem" || strContains c "Patient Problem"
              || strContains c "Patient Outcome").contains col)

/-- The `matching_cols` accumulation of `get_unique_values`: for each
pattern, the columns whose name contains it, in column order. -/
def matching_columns (df : Frame) (column_patterns : List String) : List String :=
  column_patterns.foldl
    (fun acc pat => acc ++ (Frame.colNames df).filter (fun c => strContains c pat)) []

/-- Embeds `get_unique_values(df, column_patterns)`: the matching column names
(per pattern, in column order) and the sorted list of the distinct
non-null values found in them.  The source collects into a set and
applies `sorted`; here the collected list is deduplicated and
insertion-sorted, which produces the same sorted duplicate-free list. -/
def get_unique_values (df : Frame) (column_patterns : List String) :
    List Cell × List String :=
  (List.insertionSort Cell.le
      (((matching_columns df column_patterns).map
        (fun c => (df.getCol c).filterMap id)).flatten.dedup),
    matching_columns df column_patterns)

/-- Embeds `df[cols].eq(v).any(axis=1).astype(int)`: one 0/1 entry per row,
flagging the rows in which any of the listed columns holds exactly `v`
(`NaN` cells never compare equal). -/
def eqAnyIndicator (df : Frame) (cols : List String) (v : Cell) : List Nat :=
  (List.range df.nrows).map fun i =>
    if cols.any (fun c => (df.getCol c).getD i none == some v) then 1 else 0

/-- Lookup in the `binary_data` dictionary. -/
def dictFind (d : List (String × List Nat)) (k : String) : Option (List Nat) :=
  (d.find? (fun p => p.1 == k)).map Prod.snd

/-- Assignment `d[k] = v` on the insertion-ordered `binary_data`
dictionary: an existing key keeps its position and gets the new value, a
fresh key is appended. -/
def dictInsert (d : List (String × List Nat)) (k : String) (v : List Nat) :
    List (String × List Nat) :=
  if (d.map Prod.fst).contains k then
    d.map (fun p => if p.1 == k then (k, v) else p)
  else d ++ [(k, v)]

/-- One of the three per-category loops in `create_binary_columns`: for
each distinct value, build its indicator column unless the sanitised name
is already among the detected existing indicator columns. -/
def addCategory (df : Frame) (pfx : String) (values : List Cell) (cols : List String)
    (existing_binary_cols : List String) (acc : List (String × List Nat)) :
    List (String × List Nat) :=
  values.foldl (fun d v =>
    let col_name := binaryColName pfx v
    if existing_binary_cols.contains col_name then d
    else dictInsert d col_name (eqAnyIndicator df cols v)) acc

/-- Embeds `create_binary_columns(...)`: the `binary_data` dictionary, built by
the device loop, then the patient-problem loop, then the patient-outcome
loop. -/
def create_binary_columns (df : Frame)
    (device_values patient_problem_values patient_outcome_values : List Cell)
    (device_cols patient_problem_cols patient_outcome_cols : List String)
    (existing_binary_cols : List String) : List (String × List Nat) :=
  addCategory df "Outcome_" patient_outcome_values patient_outcome_cols existing_binary_cols
    (addCategory df "Patient_" patient_problem_values patient_problem_cols existing_binary_cols
      (addCategory df "Device_" device_values device_cols existing_binary_cols []))

/-- Embeds `pd.concat([df, pd.DataFrame(binary_data)], axis=1)`: the original
columns followed by the indicator columns (integer-valued) in dictionary
insertion order. -/
def withBinary (df : Frame) (binary_data : List (String × List Nat)) : Frame :=
  { columns := df.columns ++ binary_data.map
      (fun p => (p.1, p.2.map (fun n => some (Cell.int n))))
    nrows := df.nrows }

/-- The rows produced by `dataframe_to_rows(df, index=False, header=True)`:
the header row of column names, then each data row in order. -/
def writeFrame (df : Frame) : List (List (Option Cell)) :=
  (df.columns.map (fun p => some (Cell.str p.1)))
    :: (List.range df.nrows).map (fun i => df.columns.map (fun p => p.2.getD i none))

/-! ## Worksheet model and the styling functions

An openpyxl worksheet is modelled by its populated rectangle, its cell
values and styles (total functions of 1-based row/column position), its
row-height records and its column-width records.  A dimension record
value of `none` corresponds to an unset (`None`) height/width. -/

/-- Opaque tokens for the styling attribute values the script creates. -/
def bold_font : String := "Font(bold=True)"

/-- Green fill token for indicator value 1. -/
def green_fill : String := "PatternFill(90EE90,solid)"

/-- Red fill token for indicator value 0. -/
def red_fill : String := "PatternFill(FFB6C1,solid)"

/-- One cell's visual attribute bundle, as captured and restored by the
script. -/
structure CellStyle where
  font : String
  fill : String
  alignment : String
  border : String
  number_format : String
deriving DecidableEq, Repr

/-- The attributes of a freshly created (appended) cell: default font, no
fill, default alignment and border, `General` number format. -/
def defaultStyle : CellStyle :=
  { font := "default", fill := "no-fill", alignment := "default"
    border := "default", number_format := "General" }

/-- An openpyxl worksheet. -/
structure Sheet where
  maxRow : Nat
  maxCol : Nat
  val : Nat → Nat → Option Cell
  style : Nat → Nat → CellStyle
  height : Nat → Option Nat
  width : String → Option Nat
  dimLetters : List String

/-- Embeds `capture_original_styling(ws)`: the per-cell style dictionary keyed by
(row, column) over the populated rectangle, the per-row height dictionary
for rows `1..max_row`, and the width dictionary for the column letters
with a dimension record.  Each dictionary is represented by its lookup
function (`none` = key absent). -/
def capture_original_styling (ws : Sheet) :
    (Nat → Nat → Option CellStyle) × (Nat → Option (Option Nat))
      × (String → Option (Option Nat)) :=
  ( fun r c =>
      if 1 ≤ r ∧ r ≤ ws.maxRow ∧ 1 ≤ c ∧ c ≤ ws.maxCol then some (ws.style r c) else none
  , fun r => if 1 ≤ r ∧ r ≤ ws.maxRow then some (ws.height r) else none
  , fun l => if ws.dimLetters.contains l then some (ws.width l) else none )

/-- The truthiness test `row in original_row_heights and
original_row_heights[row]` (and likewise `if width:`): the key is present
and its value is neither `None` nor zero. -/
def truthyEntry : Option (Option Nat) → Bool
  | some (some h) => h != 0
  | _ => false

/-- Embeds `restore_original_formatting(ws, ...)`: reapply the captured style to
every position with a captured record whose column lies in the original
range, reapply every truthy captured row height, and reapply every truthy
captured column width.  Everything else is left as the sheet has it. -/
def restore_original_formatting (ws : Sheet)
    (original_styles : Nat → Nat → Option CellStyle)
    (original_row_heights : Nat → Option (Option Nat))
    (original_col_widths : String → Option (Option Nat))
    (original_col_count : Nat) : Sheet :=
  { ws with
    height := fun r =>
      if 1 ≤ r ∧ r ≤ ws.maxRow ∧ truthyEntry (original_row_heights r) then
        (original_row_heights r).getD none
      else ws.height r
    style := fun r c =>
      if 1 ≤ r ∧ r ≤ ws.maxRow ∧ 1 ≤ c ∧ c ≤ original_col_count then
        match original_styles r c with
        | some st => st
        | none => ws.style r c
      else ws.style r c
    width := fun l =>
      if truthyEntry (original_col_widths l) then (original_col_widths l).getD none
      else ws.width l }

/-- Embeds `ws.delete_rows(1, ws.max_row)` and `ws.delete_cols(1, ws.max_column)`
followed by `ws.append(r)` for every produced row: the sheet now holds
exactly the appended rows, every cell carries the default style, and the
cleared rows/columns take their dimension records with them. -/
def rewriteSheet (ws : Sheet) (rows : List (List (Option Cell))) : Sheet :=
  { maxRow := rows.length
    maxCol := rows.foldl (fun m r => max m r.length) 0
    val := fun r c => (rows.getD (r - 1) []).getD (c - 1) none
    style := fun _ _ => defaultStyle
    height := fun _ => none
    width := fun _ => none
    dimLetters := [] }

/-- Embeds `apply_binary_formatting(ws, df_with_binary, original_col_count,
binary_data)`: bold header and green/red data fills on the indicator
column range.  Each cell is written at most once, so the loop is embedded
position-wise. -/
def apply_binary_formatting (ws : Sheet) (n_rows original_col_count : Nat)
    (binary_data : List (String × List Nat)) : Sheet :=
  { ws with
    style := fun r c =>
      if original_col_count + 1 ≤ c ∧ c ≤ original_col_count + binary_data.length then
        if r = 1 then { ws.style r c with font := bold_font }
        else if 2 ≤ r ∧ r ≤ n_rows + 1 then
          if ws.val r c = some (Cell.int 1) then { ws.style r c with fill := green_fill }
          else if ws.val r c = some (Cell.int 0) then { ws.style r c with fill := red_fill }
          else ws.style r c
        else ws.style r c
      else ws.style r c }

/-! ## Validation, backup naming and the per-file pipeline -/

/-- A saved container file: named sheets with their tabular content. -/
structure Workbook where
  sheets : List (String × Frame)
deriving DecidableEq, Repr

/-- The sheet of a workbook with the given name, if any. -/
def sheetFind (wb : Workbook) (name : String) : Option Frame :=
  (wb.sheets.find? (fun p => p.1 == name)).map Prod.snd

/-- Filesystem lookup: the workbook stored at a path, if the path
exists. -/
def lookupFile (files : List (String × Workbook)) (path : String) : Option Workbook :=
  (files.find? (fun p => p.1 == path)).map Prod.snd

/-- Embeds `validate_maude_file(file_path)`: existence, extension, `Events`
sheet, and at least one problem/outcome column, each failure with its own
message.  A read-only probe. -/
def validate_maude_file (files : List (String × Workbook)) (file_path : String) :
    Bool × String :=
  match lookupFile files file_path with
  | none => (false, "File not found: " ++ file_path)
  | some wb =>
    if !(strEnds (lowerStr file_path) ".xlsx") then
      (false, "Not an Excel file: " ++ file_path)
    else
      match sheetFind wb "Events" with
      | none => (false, "No 'Events' sheet found in " ++ file_path)
      | some df =>
        let device_cols := (Frame.colNames df).filter (fun c => strContains c "Device Problem")
        let patient_problem_cols :=
          (Frame.colNames df).filter (fun c => strContains c "Patient Problem")
        let patient_outcome_cols :=
          (Frame.colNames df).filter (fun c => strContains c "Patient Outcome")
        if device_cols = [] ∧ patient_problem_cols = [] ∧ patient_outcome_cols = [] then
          (false, "No problem/outcome columns found in " ++ file_path)
        else (true, "File validated successfully")

/-- Embeds `file_path.replace('.xlsx', f'_backup_...')`: every occurrence of the
lowercase marker is replaced, and the replacement text is not rescanned. -/
def backup_path (file_path timestamp : String) : String :=
  ⟨replaceChars ".xlsx".data ("_backup_" ++ timestamp ++ ".xlsx").data file_path.data⟩

/-- The `binary_data` dictionary exactly as one pipeline run computes it
from a dataframe. -/
def pipeline_binary_data (df : Frame) : List (String × List Nat) :=
  create_binary_columns df
    (get_unique_values df ["Device Problem"]).1
    (get_unique_values df ["Patient Problem"]).1
    (get_unique_values df ["Patient Outcome"]).1
    (get_unique_values df ["Device Problem"]).2
    (get_unique_values df ["Patient Problem"]).2
    (get_unique_values df ["Patient Outcome"]).2
    (check_existing_binary_columns (Frame.colNames df))

/-- The dataframe-level effect of one pipeline run on the `Events` sheet:
unchanged when nothing is produced (both early-return paths), otherwise
the original frame with the computed indicator columns appended. -/
def pipelineFrame (df : Frame) : Frame :=
  if pipeline_binary_data df = [] then df else withBinary df (pipeline_binary_data df)

/-- Whether every distinct categorical value one run collects is text (the
domain on which the model's sanitisation agrees with the source: on a
numeric value the source would raise instead). -/
def strValued (df : Frame) : Bool :=
  (((get_unique_values df ["Device Problem"]).1
      ++ (get_unique_values df ["Patient Problem"]).1)
    ++ (get_unique_values df ["Patient Outcome"]).1).all Cell.isStr

/-- The in-memory sheet after the clear-and-rewrite, the restoration of
the captured styling, and the indicator-column formatting, exactly as the
body of `process_maude_file` computes it. -/
def final_sheet (df : Frame) (ws : Sheet) : Sheet :=
  apply_binary_formatting
    (restore_original_formatting
      (rewriteSheet ws (writeFrame (withBinary df (pipeline_binary_data df))))
      (capture_original_styling ws).1
      (capture_original_styling ws).2.1
      (capture_original_styling ws).2.2
      df.columns.length)
    df.nrows df.columns.length (pipeline_binary_data df)

/-- The body of `process_maude_file` after validation (lines 202-291):
returns the success flag, the final in-memory sheet, and the ordered list
of save events (path, content written).  The two early returns save
nothing and leave the sheet untouched; otherwise the sheet is cleared,
rewritten, restyled, and saved to the backup path first and the original
path second, both with the same final content. -/
def process_events (file_path timestamp : String) (df : Frame) (ws : Sheet) :
    Bool × Sheet × List (String × Sheet) :=
  if (get_unique_values df ["Device Problem"]).1 = []
      ∧ (get_unique_values df ["Patient Problem"]).1 = []
      ∧ (get_unique_values df ["Patient Outcome"]).1 = [] then (false, ws, [])
  else if pipeline_binary_data df = [] then (true, ws, [])
  else
    (true, final_sheet df ws,
      [(backup_path file_path timestamp, final_sheet df ws), (file_path, final_sheet df ws)])

/-! ## Helper lemmas: character-level string operations -/

theorem containsChars_subset {pat : List Char} :
    ∀ {s : List Char}, containsChars pat s = true → ∀ c ∈ pat, c ∈ s := by
  intro s
  induction s with
  | nil =>
    intro h c hc
    simp only [containsChars, List.isEmpty_iff] at h
    subst h; cases hc
  | cons x rest ih =>
    intro h c hc
    simp only [containsChars, Bool.or_eq_true] at h
    rcases h with h | h
    · have hp := List.isPrefixOf_iff_prefix.mp h
      exact hp.subset hc
    · exact List.mem_cons_of_mem x (ih h c hc)

theorem strContains_mem {s pat : String} (h : strContains s pat = true) :
    ∀ c ∈ pat.data, c ∈ s.data :=
  containsChars_subset h

theorem strStarts_append (pfx rest : String) : strStarts (pfx ++ rest) pfx = true := by
  simp only [strStarts, String.data_append, List.isPrefixOf_iff_prefix]
  exact List.prefix_append _ _

theorem string_append_ne_of_head {p q a b : String} {cp cq : Char} {tp tq : List Char}
    (hp : p.data = cp :: tp) (hq : q.data = cq :: tq) (hne : cp ≠ cq) :
    p ++ a ≠ q ++ b := by
  intro h
  have hd := congrArg String.data h
  rw [String.data_append, String.data_append, hp, hq] at hd
  simp only [List.cons_append, List.cons.injEq] at hd
  exact hne hd.1

theorem string_append_right_inj {p a b : String} (h : p ++ a = p ++ b) : a = b := by
  have hd := congrArg String.data h
  rw [String.data_append, String.data_append] at hd
  exact String.ext (List.append_cancel_left hd)

/-! ## Helper lemmas: single-character replacement and sanitisation -/

theorem replaceChars_single_map (a b : Char) :
    ∀ s : List Char, replaceChars [a] [b] s = s.map (fun c => if c = a then b else c) := by
  intro s
  induction s with
  | nil => rfl
  | cons c rest ih =>
    by_cases hc : c = a
    · subst hc
      rw [replaceChars_cons_pos [b] ⟨by simp, by simp [List.isPrefixOf]⟩]
      simp [ih]
    · rw [replaceChars_cons_neg [b] (by simp [List.isPrefixOf, hc, Ne.symm])]
      simp [hc, ih]

theorem replaceChars_single_del (a : Char) :
    ∀ s : List Char, replaceChars [a] [] s = s.filter (fun c => !(c == a)) := by
  intro s
  induction s with
  | nil => rfl
  | cons c rest ih =>
    by_cases hc : c = a
    · subst hc
      rw [replaceChars_cons_pos [] ⟨by simp, by simp [List.isPrefixOf]⟩]
      simp [ih]
    · rw [replaceChars_cons_neg [] (by simp [List.isPrefixOf, hc, Ne.symm])]
      simp [hc, ih]

/-- The sanitisation rule as a single character pass: a space or slash
becomes an underscore, a comma or parenthesis disappears, everything else
stays. -/
def sanitizeFun (c : Char) : Option Char :=
  if c = ' ' then some '_'
  else if c = ',' ∨ c = '(' ∨ c = ')' then none
  else if c = '/' then some '_'
  else some c

theorem sanitizeStr_data (s : String) :
    (sanitizeStr s).data = s.data.filterMap sanitizeFun := by
  show replaceChars ['/'] ['_'] _ = _
  rw [replaceChars_single_map, replaceChars_single_del, replaceChars_single_del,
    replaceChars_single_del, replaceChars_single_map]
  generalize s.data = l
  induction l with
  | nil => rfl
  | cons c rest ih =>
    by_cases h1 : c = ' '
    · subst h1; simpa [sanitizeFun] using ih
    · by_cases h2 : c = ','
      · subst h2; simpa [sanitizeFun] using ih
      · by_cases h3 : c = '('
        · subst h3; simpa [sanitizeFun] using ih
        · by_cases h4 : c = ')'
          · subst h4; simpa [sanitizeFun, h2] using ih
          · by_cases h5 : c = '/'
            · subst h5; simpa [sanitizeFun, h1, h2, h3, h4] using ih
            · simpa [sanitizeFun, h1, h2, h3, h4, h5] using ih

theorem space_not_mem_sanitizeStr (s : String) : ' ' ∉ (sanitizeStr s).data := by
  rw [sanitizeStr_data]
  intro hmem
  rcases List.mem_filterMap.mp hmem with ⟨a, _, ha⟩
  by_cases h1 : a = ' '
  · simp [sanitizeFun, h1] at ha
  · by_cases h2 : a = ',' ∨ a = '(' ∨ a = ')'
    · simp [sanitizeFun, h1, h2] at ha
    · by_cases h3 : a = '/'
      · simp [sanitizeFun, h1, h2, h3] at ha
      · simp only [sanitizeFun, if_neg h1, if_neg h2, if_neg h3, Option.some.injEq] at ha
        exact h1 (by rw [ha])

theorem space_not_mem_sanitizeCell (v : Cell) : ' ' ∉ (sanitizeCell v).data := by
  cases v <;> exact space_not_mem_sanitizeStr _

theorem space_not_mem_binaryColName {pfx : String} (hpfx : ' ' ∉ pfx.data) (v : Cell) :
    ' ' ∉ (binaryColName pfx v).data := by
  simp only [binaryColName, String.data_append, List.mem_append]
  rintro (h | h)
  · exact hpfx h
  · exact space_not_mem_sanitizeCell v h

/-- A name without a space cannot contain any of the three category
patterns, each of which has a space. -/
theorem not_source_of_no_space {k : String} (hk : ' ' ∉ k.data) :
    (strContains k "Device Problem" || strContains k "Patient Problem"
      || strContains k "Patient Outcome") = false := by
  apply Bool.eq_false_iff.mpr
  intro h
  simp only [Bool.or_eq_true] at h
  rcases h with (h | h) | h <;>
    exact hk (strContains_mem h ' ' (by decide))

/-! ## Helper lemmas: the `binary_data` dictionary -/

theorem dictInsert_keys_subset {d : List (String × List Nat)} {k k' : String}
    {v : List Nat} (h : k' ∈ (dictInsert d k v).map Prod.fst) :
    k' ∈ d.map Prod.fst ∨ k' = k := by
  unfold dictInsert at h
  split at h
  · rcases List.mem_map.mp h with ⟨p, hp, hpk⟩
    rcases List.mem_map.mp hp with ⟨q, hq, hqp⟩
    by_cases hqk : q.1 == k
    · right; rw [← hpk, ← hqp, if_pos hqk]
    · left
      rw [← hpk, ← hqp, if_neg hqk]
      exact List.mem_map.mpr ⟨q, hq, rfl⟩
  · rw [List.map_append] at h
    rcases List.mem_append.mp h with h | h
    · left; exact h
    · right; simpa using h

theorem dictInsert_keys_super {d : List (String × List Nat)} {k k' : String}
    {v : List Nat} (h : k' ∈ d.map Prod.fst) :
    k' ∈ (dictInsert d k v).map Prod.fst := by
  unfold dictInsert
  split
  · rcases List.mem_map.mp h with ⟨p, hp, hpk⟩
    apply List.mem_map.mpr
    refine ⟨if p.1 == k then (k, v) else p, List.mem_map.mpr ⟨p, hp, rfl⟩, ?_⟩
    by_cases hpk' : p.1 == k
    · rw [if_pos hpk']
      rw [← hpk]
      exact (eq_of_beq hpk').symm
    · rw [if_neg hpk']; exact hpk
  · rw [List.map_append]
    exact List.mem_append.mpr (Or.inl h)

theorem dictInsert_keys_self (d : List (String × List Nat)) (k : String) (v : List Nat) :
    k ∈ (dictInsert d k v).map Prod.fst := by
  unfold dictInsert
  split
  · next hmem =>
    have hk : k ∈ d.map Prod.fst := List.elem_iff.mp hmem
    rcases List.mem_map.mp hk with ⟨p, hp, hpk⟩
    apply List.mem_map.mpr
    refine ⟨(k, v), List.mem_map.mpr ⟨p, hp, ?_⟩, rfl⟩
    rw [if_pos (by simp [hpk])]
  · rw [List.map_append]
    exact List.mem_append.mpr (Or.inr (by simp))

theorem dictFind_insert_self (d : List (String × List Nat)) (k : String) (v : List Nat) :
    dictFind (dictInsert d k v) k = some v := by
  unfold dictFind dictInsert
  split
  · next hmem =>
    rw [List.find?_map]
    have hcomp : ((fun p : String × List Nat => p.1 == k)
        ∘ fun p => if p.1 == k then (k, v) else p) = fun p => p.1 == k := by
      funext p
      by_cases hp : (p.1 == k) = true <;> simp [Function.comp, hp]
    rw [hcomp]
    have hk : k ∈ d.map Prod.fst := List.elem_iff.mp hmem
    rcases List.mem_map.mp hk with ⟨q, hq, hqk⟩
    cases hfind : d.find? (fun p => p.1 == k) with
    | none =>
      exact absurd (by simp [hqk] : (q.1 == k) = true)
        (by simpa using List.find?_eq_none.mp hfind q hq)
    | some q' =>
      have hq'k := List.find?_some hfind
      simp only [Option.map_some']
      rw [if_pos hq'k]
  · next hmem =>
    rw [List.find?_append]
    have hd : d.find? (fun p => p.1 == k) = none := by
      apply List.find?_eq_none.mpr
      intro q hq hqk
      exact hmem (List.elem_iff.mpr (List.mem_map.mpr ⟨q, hq, eq_of_beq hqk⟩))
    rw [hd]
    simp

theorem dictFind_insert_other {d : List (String × List Nat)} {k k' : String}
    {v : List Nat} (h : k' ≠ k) :
    dictFind (dictInsert d k v) k' = dictFind d k' := by
  unfold dictFind dictInsert
  split
  · rw [List.find?_map]
    have hcomp : ((fun p : String × List Nat => p.1 == k')
        ∘ fun p => if p.1 == k then (k, v) else p) = fun p => p.1 == k' := by
      funext p
      by_cases hp : (p.1 == k) = true
      · have hp' := eq_of_beq hp
        simp only [Function.comp, if_pos hp]
        rw [hp']
      · simp [Function.comp, hp]
    rw [hcomp]
    cases hfind : d.find? (fun p => p.1 == k') with
    | none => rfl
    | some q =>
      have hqk := List.find?_some hfind
      have hq' : (q.1 == k) = false := by
        simp only [beq_eq_false_iff_ne, ne_eq]
        rw [eq_of_beq hqk]
        exact fun hkk => h hkk
      simp only [Option.map_some']
      rw [if_neg (by simp [hq'])]
  · rw [List.find?_append]
    have hnone : List.find? (fun p => p.1 == k') [(k, v)] = none := by
      apply List.find?_eq_none.mpr
      intro q hq hqk
      simp only [List.mem_singleton] at hq
      subst hq
      exact h (eq_of_beq hqk).symm
    rw [hnone, Option.or_none]

theorem dictInsert_keys_nodup {d : List (String × List Nat)} {k : String} {v : List Nat}
    (h : (d.map Prod.fst).Nodup) : ((dictInsert d k v).map Prod.fst).Nodup := by
  unfold dictInsert
  split
  · have heq : (d.map (fun p => if p.1 == k then (k, v) else p)).map Prod.fst
        = d.map Prod.fst := by
      rw [List.map_map]
      apply List.map_congr_left
      intro p _
      by_cases hp : (p.1 == k) = true
      · simp [Function.comp, hp, (eq_of_beq hp).symm]
      · simp [Function.comp, hp]
    rw [heq]; exact h
  · next hmem =>
    rw [List.map_append]
    refine List.Nodup.append h (by simp) ?_
    intro a ha ha'
    simp only [List.map_cons, List.map_nil, List.mem_singleton] at ha'
    subst ha'
    exact hmem (List.elem_iff.mpr ha)

theorem dictFind_some_mem_keys {d : List (String × List Nat)} {k : String}
    {v : List Nat} (h : dictFind d k = some v) : k ∈ d.map Prod.fst := by
  unfold dictFind at h
  cases hf : d.find? (fun p => p.1 == k) with
  | none => rw [hf] at h; cases h
  | some q =>
    have hq := List.find?_some hf
    exact List.mem_map.mpr ⟨q, List.mem_of_find?_eq_some hf, eq_of_beq hq⟩

/-! ## Helper lemmas: the per-category loop -/

@[simp] theorem addCategory_nil (df : Frame) (pfx : String) (cols ex : List String)
    (acc : List (String × List Nat)) : addCategory df pfx [] cols ex acc = acc := rfl

theorem addCategory_cons (df : Frame) (pfx : String) (u : Cell) (rest : List Cell)
    (cols ex : List String) (acc : List (String × List Nat)) :
    addCategory df pfx (u :: rest) cols ex acc
      = addCategory df pfx rest cols ex
          (if ex.contains (binaryColName pfx u) then acc
           else dictInsert acc (binaryColName pfx u) (eqAnyIndicator df cols u)) := by
  unfold addCategory
  simp only [List.foldl_cons]

theorem addCategory_keys_sub {df : Frame} {pfx : String} {cols ex : List String} :
    ∀ {values : List Cell} {acc : List (String × List Nat)} {k : String},
      k ∈ (addCategory df pfx values cols ex acc).map Prod.fst →
      k ∈ acc.map Prod.fst ∨ ∃ v ∈ values, k = binaryColName pfx v ∧ k ∉ ex := by
  intro values
  induction values with
  | nil => intro acc k h; exact Or.inl (by simpa using h)
  | cons u rest ih =>
    intro acc k h
    rw [addCategory_cons] at h
    rcases ih h with h' | ⟨v, hv, hk, hex⟩
    · split at h'
      · exact Or.inl h'
      · next hcont =>
        rcases dictInsert_keys_subset h' with h'' | h''
        · exact Or.inl h''
        · refine Or.inr ⟨u, List.mem_cons_self u rest, h'', ?_⟩
          intro hmem
          exact hcont (List.elem_iff.mpr (h'' ▸ hmem))
    · exact Or.inr ⟨v, List.mem_cons_of_mem u hv, hk, hex⟩

theorem addCategory_keys_mono {df : Frame} {pfx : String} {cols ex : List String} :
    ∀ {values : List Cell} {acc : List (String × List Nat)} {k : String},
      k ∈ acc.map Prod.fst →
      k ∈ (addCategory df pfx values cols ex acc).map Prod.fst := by
  intro values
  induction values with
  | nil => intro acc k h; simpa using h
  | cons u rest ih =>
    intro acc k h
    rw [addCategory_cons]
    apply ih
    split
    · exact h
    · exact dictInsert_keys_super h

theorem addCategory_keys_nodup {df : Frame} {pfx : String} {cols ex : List String} :
    ∀ {values : List Cell} {acc : List (String × List Nat)},
      (acc.map Prod.fst).Nodup →
      ((addCategory df pfx values cols ex acc).map Prod.fst).Nodup := by
  intro values
  induction values with
  | nil => intro acc h; simpa using h
  | cons u rest ih =>
    intro acc h
    rw [addCategory_cons]
    apply ih
    split
    · exact h
    · exact dictInsert_keys_nodup h

theorem addCategory_find_preserve {df : Frame} {pfx : String} {cols ex : List String} :
    ∀ {values : List Cell} {acc : List (String × List Nat)} {k : String},
      (∀ v ∈ values, binaryColName pfx v ≠ k) →
      dictFind (addCategory df pfx values cols ex acc) k = dictFind acc k := by
  intro values
  induction values with
  | nil => intro acc k _; rfl
  | cons u rest ih =>
    intro acc k hne
    rw [addCategory_cons]
    rw [ih (fun v hv => hne v (List.mem_cons_of_mem u hv))]
    split
    · rfl
    · exact dictFind_insert_other (fun hk => hne u (List.mem_cons_self u rest) hk.symm)

theorem addCategory_find_self {df : Frame} {pfx : String} {cols ex : List String} :
    ∀ {values : List Cell} {acc : List (String × List Nat)} {v : Cell},
      (∀ a ∈ values, ∀ b ∈ values, sanitizeCell b = sanitizeCell a → b = a) →
      v ∈ values → binaryColName pfx v ∉ ex →
      dictFind (addCategory df pfx values cols ex acc) (binaryColName pfx v)
        = some (eqAnyIndicator df cols v) := by
  intro values
  induction values with
  | nil => intro acc v _ hv; cases hv
  | cons u rest ih =>
    intro acc v hinj hv hex
    by_cases hvr : v ∈ rest
    · rw [addCategory_cons]
      exact ih (fun a ha b hb => hinj a (List.mem_cons_of_mem u ha)
        b (List.mem_cons_of_mem u hb)) hvr hex
    · have hvu : v = u := (List.mem_cons.mp hv).resolve_right hvr
      subst hvu
      rw [addCategory_cons]
      have hcont : ex.contains (binaryColName pfx v) = false := by
        cases hb : ex.contains (binaryColName pfx v) with
        | false => rfl
        | true => exact absurd (List.elem_iff.mp hb) hex
      have hneg : ¬(ex.contains (binaryColName pfx v) = true) := by
        intro hc; rw [hcont] at hc; cases hc
      rw [if_neg hneg]
      have hne : ∀ w ∈ rest, binaryColName pfx w ≠ binaryColName pfx v := by
        intro w hw heq
        have hsan : sanitizeCell w = sanitizeCell v := string_append_right_inj heq
        have := hinj v hv w (List.mem_cons_of_mem v hw) hsan
        exact hvr (this ▸ hw)
      rw [addCategory_find_preserve hne]
      exact dictFind_insert_self _ _ _

theorem addCategory_skip_all {df : Frame} {pfx : String} {cols ex : List String} :
    ∀ {values : List Cell} {acc : List (String × List Nat)},
      (∀ v ∈ values, binaryColName pfx v ∈ ex) →
      addCategory df pfx values cols ex acc = acc := by
  intro values
  induction values with
  | nil => intro acc _; rfl
  | cons u rest ih =>
    intro acc h
    rw [addCategory_cons,
      if_pos (List.elem_iff.mpr (h u (List.mem_cons_self u rest)))]
    exact ih (fun v hv => h v (List.mem_cons_of_mem u hv))

theorem addCategory_covers {df : Frame} {pfx : String} {cols ex : List String} :
    ∀ {values : List Cell} {acc : List (String × List Nat)} {v : Cell},
      v ∈ values →
      binaryColName pfx v ∈ ex
        ∨ binaryColName pfx v ∈ (addCategory df pfx values cols ex acc).map Prod.fst := by
  intro values
  induction values with
  | nil => intro acc v hv; cases hv
  | cons u rest ih =>
    intro acc v hv
    rcases List.mem_cons.mp hv with hvu | hvr
    · subst hvu
      by_cases hc : ex.contains (binaryColName pfx v) = true
      · exact Or.inl (List.elem_iff.mp hc)
      · right
        rw [addCategory_cons, if_neg hc]
        exact addCategory_keys_mono (dictInsert_keys_self _ _ _)
    · rw [addCategory_cons]
      exact ih hvr

/-! ## Helper lemmas: the assembled dictionary -/

theorem marker_data_device : "Device_".data = 'D' :: ['e', 'v', 'i', 'c', 'e', '_'] := rfl

theorem marker_data_patient : "Patient_".data = 'P' :: ['a', 't', 'i', 'e', 'n', 't', '_'] := rfl

theorem marker_data_outcome : "Outcome_".data = 'O' :: ['u', 't', 'c', 'o', 'm', 'e', '_'] := rfl

theorem device_ne_patient (a b : String) : "Device_" ++ a ≠ "Patient_" ++ b :=
  string_append_ne_of_head marker_data_device marker_data_patient (by decide)

theorem device_ne_outcome (a b : String) : "Device_" ++ a ≠ "Outcome_" ++ b :=
  string_append_ne_of_head marker_data_device marker_data_outcome (by decide)

theorem patient_ne_outcome (a b : String) : "Patient_" ++ a ≠ "Outcome_" ++ b :=
  string_append_ne_of_head marker_data_patient marker_data_outcome (by decide)

theorem create_keys_cases {df : Frame} {dv pv ov : List Cell}
    {dc pc oc ex : List String} {k : String}
    (h : k ∈ (create_binary_columns df dv pv ov dc pc oc ex).map Prod.fst) :
    ((∃ v ∈ dv, k = binaryColName "Device_" v)
      ∨ (∃ v ∈ pv, k = binaryColName "Patient_" v)
      ∨ (∃ v ∈ ov, k = binaryColName "Outcome_" v)) ∧ k ∉ ex := by
  unfold create_binary_columns at h
  rcases addCategory_keys_sub h with h' | ⟨v, hv, hk, hex⟩
  · rcases addCategory_keys_sub h' with h'' | ⟨v, hv, hk, hex⟩
    · rcases addCategory_keys_sub h'' with h''' | ⟨v, hv, hk, hex⟩
      · simp at h'''
      · exact ⟨Or.inl ⟨v, hv, hk⟩, hk ▸ hex⟩
    · exact ⟨Or.inr (Or.inl ⟨v, hv, hk⟩), hk ▸ hex⟩
  · exact ⟨Or.inr (Or.inr ⟨v, hv, hk⟩), hk ▸ hex⟩

theorem create_keys_no_space {df : Frame} {dv pv ov : List Cell}
    {dc pc oc ex : List String} {k : String}
    (h : k ∈ (create_binary_columns df dv pv ov dc pc oc ex).map Prod.fst) :
    ' ' ∉ k.data := by
  rcases (create_keys_cases h).1 with ⟨v, _, hk⟩ | ⟨v, _, hk⟩ | ⟨v, _, hk⟩ <;>
    subst hk <;> exact space_not_mem_binaryColName (by decide) v

theorem create_keys_starts {df : Frame} {dv pv ov : List Cell}
    {dc pc oc ex : List String} {k : String}
    (h : k ∈ (create_binary_columns df dv pv ov dc pc oc ex).map Prod.fst) :
    (strStarts k "Device_" || strStarts k "Patient_" || strStarts k "Outcome_") = true := by
  rcases (create_keys_cases h).1 with ⟨v, _, hk⟩ | ⟨v, _, hk⟩ | ⟨v, _, hk⟩ <;>
    subst hk <;> simp [binaryColName, strStarts_append]

theorem create_keys_nodup (df : Frame) (dv pv ov : List Cell)
    (dc pc oc ex : List String) :
    ((create_binary_columns df dv pv ov dc pc oc ex).map Prod.fst).Nodup := by
  unfold create_binary_columns
  exact addCategory_keys_nodup (addCategory_keys_nodup (addCategory_keys_nodup (by simp)))

/-! ## Helper lemmas: a second run over the augmented frame -/

theorem colNames_withBinary (df : Frame) (bd : List (String × List Nat)) :
    (withBinary df bd).colNames = df.colNames ++ bd.map Prod.fst := by
  unfold withBinary Frame.colNames
  rw [List.map_append, List.map_map]
  rfl

theorem find?_isSome_of_mem_colNames {df : Frame} {c : String} (h : c ∈ df.colNames) :
    (df.columns.find? (fun p => p.1 == c)).isSome := by
  rcases List.mem_map.mp h with ⟨p, hp, hpc⟩
  exact List.find?_isSome.mpr ⟨p, hp, by simp [hpc]⟩

theorem getCol_withBinary {df : Frame} {bd : List (String × List Nat)} {c : String}
    (h : c ∈ df.colNames) : (withBinary df bd).getCol c = df.getCol c := by
  unfold Frame.getCol withBinary
  simp only [List.find?_append]
  rw [Option.or_of_isSome (find?_isSome_of_mem_colNames h)]

theorem filter_contains_withBinary (df : Frame) (bd : List (String × List Nat))
    (pat : String) (hpat : ' ' ∈ pat.data)
    (hkeys : ∀ k ∈ bd.map Prod.fst, ' ' ∉ k.data) :
    (withBinary df bd).colNames.filter (fun c => strContains c pat)
      = df.colNames.filter (fun c => strContains c pat) := by
  rw [colNames_withBinary, List.filter_append]
  have hnil : (bd.map Prod.fst).filter (fun c => strContains c pat) = [] := by
    apply List.filter_eq_nil_iff.mpr
    intro k hk hcon
    exact hkeys k hk (strContains_mem hcon ' ' hpat)
  rw [hnil, List.append_nil]

theorem matching_columns_mem_aux (df : Frame) :
    ∀ (pats : List String) (acc : List String) (c : String),
      c ∈ pats.foldl
          (fun acc pat => acc ++ (Frame.colNames df).filter (fun col => strContains col pat)) acc
        ↔ c ∈ acc ∨ ∃ pat ∈ pats, c ∈ df.colNames ∧ strContains c pat = true := by
  intro pats
  induction pats with
  | nil => intro acc c; simp
  | cons p rest ih =>
    intro acc c
    simp only [List.foldl_cons]
    rw [ih]
    constructor
    · rintro (hc | ⟨pat, hpat, hcn, hcc⟩)
      · rcases List.mem_append.mp hc with hc | hc
        · exact Or.inl hc
        · rcases List.mem_filter.mp hc with ⟨hcn, hcc⟩
          exact Or.inr ⟨p, List.mem_cons_self p rest, hcn, hcc⟩
      · exact Or.inr ⟨pat, List.mem_cons_of_mem p hpat, hcn, hcc⟩
    · rintro (hc | ⟨pat, hpat, hcn, hcc⟩)
      · exact Or.inl (List.mem_append.mpr (Or.inl hc))
      · rcases List.mem_cons.mp hpat with hpp | hpp
        · subst hpp
          exact Or.inl (List.mem_append.mpr (Or.inr (List.mem_filter.mpr ⟨hcn, hcc⟩)))
        · exact Or.inr ⟨pat, hpp, hcn, hcc⟩

theorem matching_columns_mem {df : Frame} {pats : List String} {c : String} :
    c ∈ matching_columns df pats
      ↔ ∃ pat ∈ pats, c ∈ df.colNames ∧ strContains c pat = true := by
  unfold matching_columns
  rw [matching_columns_mem_aux]
  simp

theorem matching_columns_subset {df : Frame} {pats : List String} {c : String}
    (h : c ∈ matching_columns df pats) : c ∈ df.colNames :=
  (matching_columns_mem.mp h).choose_spec.2.1

theorem matching_columns_withBinary (df : Frame) (bd : List (String × List Nat))
    (pat : String) (hpat : ' ' ∈ pat.data)
    (hkeys : ∀ k ∈ bd.map Prod.fst, ' ' ∉ k.data) :
    matching_columns (withBinary df bd) [pat] = matching_columns df [pat] := by
  unfold matching_columns
  simp only [List.foldl_cons, List.foldl_nil, List.nil_append]
  exact filter_contains_withBinary df bd pat hpat hkeys

theorem guv_withBinary (df : Frame) (bd : List (String × List Nat)) (pat : String)
    (hpat : ' ' ∈ pat.data) (hkeys : ∀ k ∈ bd.map Prod.fst, ' ' ∉ k.data) :
    get_unique_values (withBinary df bd) [pat] = get_unique_values df [pat] := by
  unfold get_unique_values
  rw [matching_columns_withBinary df bd pat hpat hkeys]
  have hvals : (matching_columns df [pat]).map
        (fun c => ((withBinary df bd).getCol c).filterMap id)
      = (matching_columns df [pat]).map (fun c => (df.getCol c).filterMap id) := by
    apply List.map_congr_left
    intro c hc
    rw [getCol_withBinary (matching_columns_subset hc)]
  rw [hvals]

theorem check_existing_withBinary (df : Frame) (bd : List (String × List Nat))
    (hsp : ∀ k ∈ bd.map Prod.fst, ' ' ∉ k.data)
    (hst : ∀ k ∈ bd.map Prod.fst,
      (strStarts k "Device_" || strStarts k "Patient_" || strStarts k "Outcome_") = true) :
    ∀ k, (k ∈ check_existing_binary_columns df.colNames ∨ k ∈ bd.map Prod.fst) →
      k ∈ check_existing_binary_columns (df.colNames ++ bd.map Prod.fst) := by
  have hsrc : (df.colNames ++ bd.map Prod.fst).filter (fun c =>
        strContains c "Device Problem" || strContains c "Patient Problem"
          || strContains c "Patient Outcome")
      = df.colNames.filter (fun c =>
        strContains c "Device Problem" || strContains c "Patient Problem"
          || strContains c "Patient Outcome") := by
    rw [List.filter_append]
    have : (bd.map Prod.fst).filter (fun c =>
        strContains c "Device Problem" || strContains c "Patient Problem"
          || strContains c "Patient Outcome") = [] := by
      apply List.filter_eq_nil_iff.mpr
      intro k hk hcon
      rw [not_source_of_no_space (hsp k hk)] at hcon
      cases hcon
    rw [this, List.append_nil]
  intro k hk
  unfold check_existing_binary_columns at *
  rcases hk with hk | hk
  · rcases List.mem_filter.mp hk with ⟨hkmem, hkpred⟩
    apply List.mem_filter.mpr
    refine ⟨List.mem_append.mpr (Or.inl hkmem), ?_⟩
    rw [hsrc]
    exact hkpred
  · apply List.mem_filter.mpr
    refine ⟨List.mem_append.mpr (Or.inr hk), ?_⟩
    rw [hsrc]
    rw [Bool.and_eq_true]
    refine ⟨hst k hk, ?_⟩
    have hnm : k ∉ df.colNames.filter (fun c =>
        strContains c "Device Problem" || strContains c "Patient Problem"
          || strContains c "Patient Outcome") := by
      intro hmem
      rcases List.mem_filter.mp hmem with ⟨_, hp⟩
      rw [not_source_of_no_space (hsp k hk)] at hp
      cases hp
    cases hb : (df.colNames.filter (fun c =>
        strContains c "Device Problem" || strContains c "Patient Problem"
          || strContains c "Patient Outcome")).contains k with
    | false => rfl
    | true => exact absurd (List.elem_iff.mp hb) hnm

theorem create_covers_device {df : Frame} {dv pv ov : List Cell}
    {dc pc oc ex : List String} {v : Cell} (hv : v ∈ dv) :
    binaryColName "Device_" v ∈ ex
      ∨ binaryColName "Device_" v
          ∈ (create_binary_columns df dv pv ov dc pc oc ex).map Prod.fst := by
  unfold create_binary_columns
  rcases @addCategory_covers df "Device_" dc ex dv [] v hv with h | h
  · exact Or.inl h
  · exact Or.inr (addCategory_keys_mono (addCategory_keys_mono h))

theorem create_covers_patient {df : Frame} {dv pv ov : List Cell}
    {dc pc oc ex : List String} {v : Cell} (hv : v ∈ pv) :
    binaryColName "Patient_" v ∈ ex
      ∨ binaryColName "Patient_" v
          ∈ (create_binary_columns df dv pv ov dc pc oc ex).map Prod.fst := by
  unfold create_binary_columns
  rcases @addCategory_covers df "Patient_" pc ex pv
      (addCategory df "Device_" dv dc ex []) v hv with h | h
  · exact Or.inl h
  · exact Or.inr (addCategory_keys_mono h)

theorem create_covers_outcome {df : Frame} {dv pv ov : List Cell}
    {dc pc oc ex : List String} {v : Cell} (hv : v ∈ ov) :
    binaryColName "Outcome_" v ∈ ex
      ∨ binaryColName "Outcome_" v
          ∈ (create_binary_columns df dv pv ov dc pc oc ex).map Prod.fst := by
  unfold create_binary_columns
  exact addCategory_covers hv

/-- Running the extraction and builder over a frame augmented with
indicator columns whose names are well-formed and cover all candidate
names produces an empty dictionary. -/
theorem pipeline_binary_data_withBinary_nil (df : Frame) (bd : List (String × List Nat))
    (hsp : ∀ k ∈ bd.map Prod.fst, ' ' ∉ k.data)
    (hst : ∀ k ∈ bd.map Prod.fst,
      (strStarts k "Device_" || strStarts k "Patient_" || strStarts k "Outcome_") = true)
    (hcov_d : ∀ v ∈ (get_unique_values df ["Device Problem"]).1,
      binaryColName "Device_" v ∈ check_existing_binary_columns df.colNames
        ∨ binaryColName "Device_" v ∈ bd.map Prod.fst)
    (hcov_p : ∀ v ∈ (get_unique_values df ["Patient Problem"]).1,
      binaryColName "Patient_" v ∈ check_existing_binary_columns df.colNames
        ∨ binaryColName "Patient_" v ∈ bd.map Prod.fst)
    (hcov_o : ∀ v ∈ (get_unique_values df ["Patient Outcome"]).1,
      binaryColName "Outcome_" v ∈ check_existing_binary_columns df.colNames
        ∨ binaryColName "Outcome_" v ∈ bd.map Prod.fst) :
    pipeline_binary_data (withBinary df bd) = [] := by
  unfold pipeline_binary_data
  rw [guv_withBinary df bd "Device Problem" (by decide) hsp,
    guv_withBinary df bd "Patient Problem" (by decide) hsp,
    guv_withBinary df bd "Patient Outcome" (by decide) hsp]
  rw [colNames_withBinary]
  unfold create_binary_columns
  rw [addCategory_skip_all
      (fun v hv => check_existing_withBinary df bd hsp hst _ (hcov_d v hv)),
    addCategory_skip_all
      (fun v hv => check_existing_withBinary df bd hsp hst _ (hcov_p v hv)),
    addCategory_skip_all
      (fun v hv => check_existing_withBinary df bd hsp hst _ (hcov_o v hv))]

/-- Feeding the augmented frame of one run back into the pipeline produces
an empty `binary_data` dictionary: every candidate column name is caught
by the existing-indicator detection. -/
theorem pipeline_second_run (df : Frame) :
    pipeline_binary_data (pipelineFrame df) = [] := by
  unfold pipelineFrame
  by_cases hbd : pipeline_binary_data df = []
  · rw [if_pos hbd]
    exact hbd
  · rw [if_neg hbd]
    apply pipeline_binary_data_withBinary_nil
    · intro k hk
      unfold pipeline_binary_data at hk
      exact create_keys_no_space hk
    · intro k hk
      unfold pipeline_binary_data at hk
      exact create_keys_starts hk
    · intro v hv
      unfold pipeline_binary_data
      exact create_covers_device hv
    · intro v hv
      unfold pipeline_binary_data
      exact create_covers_patient hv
    · intro v hv
      unfold pipeline_binary_data
      exact create_covers_outcome hv

/-! ## Helper lemmas: indexing -/

theorem getD_map_lt {α β : Type} {l : List α} {f : α → β} {i : Nat}
    (h : i < l.length) (d : β) (d' : α) :
    (l.map f).getD i d = f (l.getD i d') := by
  rw [List.getD_eq_getElem?_getD, List.getD_eq_getElem?_getD, List.getElem?_map,
    List.getElem?_eq_getElem h]
  rfl

theorem getD_append_lt {α : Type} {l₁ l₂ : List α} {i : Nat} (h : i < l₁.length) (d : α) :
    (l₁ ++ l₂).getD i d = l₁.getD i d := by
  rw [List.getD_eq_getElem?_getD, List.getD_eq_getElem?_getD, List.getElem?_append_left h]

theorem getD_append_right_add {α : Type} (l₁ l₂ : List α) (j : Nat) (d : α) :
    (l₁ ++ l₂).getD (l₁.length + j) d = l₂.getD j d := by
  have hj : l₁.length + j - l₁.length = j := by omega
  rw [List.getD_eq_getElem?_getD, List.getD_eq_getElem?_getD,
    List.getElem?_append_right (Nat.le_add_right _ _), hj]

theorem getD_map_range {α : Type} {n i : Nat} (f : Nat → α) (d : α) (h : i < n) :
    ((List.range n).map f).getD i d = f i := by
  rw [List.getD_eq_getElem?_getD, List.getElem?_map, List.getElem?_range h]
  rfl

/-- Row-wise meaning of the indicator column: entry `i` is 1 exactly when
some listed column holds the value in row `i`. -/
theorem eqAnyIndicator_getD {df : Frame} {cols : List String} {v : Cell} {i : Nat}
    (h : i < df.nrows) :
    ((eqAnyIndicator df cols v).getD i 0 = 1
      ↔ ∃ c ∈ cols, (df.getCol c).getD i none = some v) := by
  unfold eqAnyIndicator
  rw [getD_map_range _ _ h]
  constructor
  · intro h1
    by_cases hany : cols.any (fun c => (df.getCol c).getD i none == some v) = true
    · rcases List.any_eq_true.mp hany with ⟨c, hc, hcv⟩
      exact ⟨c, hc, eq_of_beq hcv⟩
    · rw [if_neg hany] at h1
      cases h1
  · rintro ⟨c, hc, hcv⟩
    have hany : (cols.any fun c => (df.getCol c).getD i none == some v) = true :=
      List.any_eq_true.mpr ⟨c, hc, beq_iff_eq.mpr hcv⟩
    rw [if_pos hany]

theorem eqAnyIndicator_getD_zero {df : Frame} {cols : List String} {v : Cell} {i : Nat}
    (h : i < df.nrows)
    (hno : ¬∃ c ∈ cols, (df.getCol c).getD i none = some v) :
    (eqAnyIndicator df cols v).getD i 0 = 0 := by
  unfold eqAnyIndicator
  rw [getD_map_range _ _ h]
  rw [if_neg]
  intro hany
  rcases List.any_eq_true.mp hany with ⟨c, hc, hcv⟩
  exact hno ⟨c, hc, eq_of_beq hcv⟩

/-! ## Helper lemmas: the rewritten rows -/

theorem writeFrame_length (df : Frame) : (writeFrame df).length = df.nrows + 1 := by
  simp [writeFrame]

theorem writeFrame_getD_zero (df : Frame) :
    (writeFrame df).getD 0 [] = df.columns.map (fun p => some (Cell.str p.1)) := rfl

theorem writeFrame_getD_succ (df : Frame) {i : Nat} (h : i < df.nrows) :
    (writeFrame df).getD (i + 1) [] = df.columns.map (fun p => p.2.getD i none) := by
  show ((List.range df.nrows).map fun i => df.columns.map (fun p => p.2.getD i none)).getD i []
      = _
  rw [getD_map_range _ _ h]

theorem withBinary_columns_length (df : Frame) (bd : List (String × List Nat)) :
    (withBinary df bd).columns.length = df.columns.length + bd.length := by
  simp [withBinary]

/-- The builder yields nothing when all three distinct-value lists are
empty (the path on which `process_maude_file` returns early with a
failure message). -/
theorem pipeline_binary_data_eq_nil_of_no_values (df : Frame)
    (h1 : (get_unique_values df ["Device Problem"]).1 = [])
    (h2 : (get_unique_values df ["Patient Problem"]).1 = [])
    (h3 : (get_unique_values df ["Patient Outcome"]).1 = []) :
    pipeline_binary_data df = [] := by
  unfold pipeline_binary_data
  rw [h1, h2, h3]
  rfl

/-! ## Claim theorems -/

/-- C2: re-running the pipeline on its own output builds an empty
`binary_data` dictionary — every candidate sanitised name is already among
the detected existing indicator columns, so every value is skipped — and
therefore the frame after the second run equals the frame after the
first run (same columns, same content).  The all-text hypothesis
restricts the statement to inputs on which the embedded sanitisation
agrees with the source (a numeric categorical value would make the source
raise instead). -/
theorem claim2_theorem (df : Frame) (hstr : strValued df = true) :
    pipeline_binary_data (pipelineFrame df) = []
    ∧ pipelineFrame (pipelineFrame df) = pipelineFrame df := by
  refine ⟨pipeline_second_run df, ?_⟩
  rw [pipelineFrame, if_pos (pipeline_second_run df)]

theorem claim2_witness :
    strValued ⟨[("Device Problem 1",
        [some (Cell.str "Fracture"), some (Cell.str "Corrosion")])], 2⟩ = true
    ∧ (pipeline_binary_data (pipelineFrame ⟨[("Device Problem 1",
        [some (Cell.str "Fracture"), some (Cell.str "Corrosion")])], 2⟩) = []
      ∧ pipelineFrame (pipelineFrame ⟨[("Device Problem 1",
          [some (Cell.str "Fracture"), some (Cell.str "Corrosion")])], 2⟩)
        = pipelineFrame ⟨[("Device Problem 1",
          [some (Cell.str "Fracture"), some (Cell.str "Corrosion")])], 2⟩) :=
  ⟨by decide, claim2_theorem _ (by decide)⟩

/-- C3 (counterexample): the claim says slashes are stripped, but the
source maps a slash to an underscore: on the value `a/b` the code yields
`a_b` while the claimed rule yields `ab`. -/
theorem claim3_counterexample :
    sanitizeStr "a/b" = "a_b"
    ∧ ("a/b".data.filterMap fun c =>
        if c = ' ' then some '_'
        else if c = '(' ∨ c = ')' ∨ c = ',' ∨ c = '/' then none
        else some c) = "ab".data
    ∧ sanitizeStr "a/b" ≠ "ab" :=
  ⟨by decide, by decide, by decide⟩

/-- C3 (amended): the indicator column name is the category marker
followed by the sanitised value, where a space or a slash becomes an
underscore and a comma or parenthesis is removed. -/
theorem claim3_amended_theorem (pfx : String) (v : String) :
    binaryColName pfx (Cell.str v) = pfx ++ ⟨v.data.filterMap sanitizeFun⟩ := by
  unfold binaryColName sanitizeCell
  exact congrArg (pfx ++ ·) (String.ext (sanitizeStr_data v))

/-- Predicate `cleanStem old stem` asserts that no occurrence of `old` starts inside
`stem` when `old` is appended after it. -/
def cleanStem (old : List Char) : List Char → Bool
  | [] => true
  | c :: rest => !(old.isPrefixOf ((c :: rest) ++ old)) && cleanStem old rest

theorem replaceChars_append_end {old : List Char} (new : List Char) (hold : old ≠ []) :
    ∀ stem, cleanStem old stem = true → replaceChars old new (stem ++ old) = stem ++ new := by
  intro stem
  induction stem with
  | nil =>
    intro _
    simp only [List.nil_append]
    cases old with
    | nil => exact absurd rfl hold
    | cons o os =>
      rw [replaceChars_cons_pos new
        ⟨hold, List.isPrefixOf_iff_prefix.mpr (List.prefix_refl _)⟩]
      rw [show ((o :: os).drop (o :: os).length) = [] from List.drop_length _]
      simp
  | cons c rest ih =>
    intro hclean
    simp only [cleanStem, Bool.and_eq_true, Bool.not_eq_true'] at hclean
    obtain ⟨hpre, hrest⟩ := hclean
    rw [List.cons_append, replaceChars_cons_neg new ?hneg]
    case hneg =>
      rintro ⟨-, hp⟩
      rw [← List.cons_append] at hp
      rw [hpre] at hp
      cases hp
    rw [ih hrest, List.cons_append]

theorem backup_path_clean (stem : List Char) (ts : String)
    (h : cleanStem ".xlsx".data stem = true) :
    backup_path ⟨stem ++ ".xlsx".data⟩ ts = ⟨stem⟩ ++ "_backup_" ++ ts ++ ".xlsx" := by
  unfold backup_path
  show (⟨replaceChars ".xlsx".data ("_backup_" ++ ts ++ ".xlsx").data
      (stem ++ ".xlsx".data)⟩ : String) = _
  rw [replaceChars_append_end _ (by decide) stem h]
  exact String.ext (by simp [String.data_append])

/-- C7 (counterexample): the backup path is derived with a case-sensitive
replace of the lowercase marker, while validation lower-cases the name
first.  `DATA.XLSX` passes the extension check, yet its "backup" path
equals the original path — no name with `_backup_<timestamp>` inserted
before the extension is ever produced. -/
theorem claim7_counterexample :
    strEnds (lowerStr "DATA.XLSX") ".xlsx" = true
    ∧ backup_path "DATA.XLSX" "20250101_120000" = "DATA.XLSX"
    ∧ "DATA.XLSX" ≠ "DATA_backup_20250101_120000.XLSX" :=
  ⟨by decide, by decide, by decide⟩

/-- C7 (amended): for every processed file that is modified, the fully
modified in-memory workbook is saved first to the backup path and then to
the original path, with identical content; the backup path is the file
path with every occurrence of the exact (lowercase) substring `.xlsx`
replaced by `_backup_<timestamp>.xlsx` — in particular, when the marker
occurs exactly once, at the end, the tag is inserted before the
extension. -/
theorem claim7_amended_theorem (stem : List Char) (timestamp : String)
    (df : Frame) (ws : Sheet)
    (hclean : cleanStem ".xlsx".data stem = true)
    (hbd : pipeline_binary_data df ≠ []) :
    backup_path ⟨stem ++ ".xlsx".data⟩ timestamp
      = ⟨stem⟩ ++ "_backup_" ++ timestamp ++ ".xlsx"
    ∧ (process_events ⟨stem ++ ".xlsx".data⟩ timestamp df ws).2.2
        = [(⟨stem⟩ ++ "_backup_" ++ timestamp ++ ".xlsx", final_sheet df ws),
           (⟨stem ++ ".xlsx".data⟩, final_sheet df ws)] := by
  refine ⟨backup_path_clean stem timestamp hclean, ?_⟩
  unfold process_events
  rw [if_neg ?hvals]
  case hvals =>
    rintro ⟨h1, h2, h3⟩
    exact hbd (pipeline_binary_data_eq_nil_of_no_values df h1 h2 h3)
  rw [if_neg hbd]
  rw [backup_path_clean stem timestamp hclean]

theorem claim7_witness :
    cleanStem ".xlsx".data "report".data = true
    ∧ pipeline_binary_data ⟨[("Device Problem", [some (Cell.str "Fracture")])], 1⟩ ≠ []
    ∧ (backup_path ⟨"report".data ++ ".xlsx".data⟩ "20250101_120000"
        = (⟨"report".data⟩ : String) ++ "_backup_" ++ "20250101_120000" ++ ".xlsx"
      ∧ (process_events ⟨"report".data ++ ".xlsx".data⟩ "20250101_120000"
            ⟨[("Device Problem", [some (Cell.str "Fracture")])], 1⟩
            ⟨1, 1, fun _ _ => none, fun _ _ => defaultStyle, fun _ => none,
              fun _ => none, []⟩).2.2
        = [((⟨"report".data⟩ : String) ++ "_backup_" ++ "20250101_120000" ++ ".xlsx",
            final_sheet ⟨[("Device Problem", [some (Cell.str "Fracture")])], 1⟩
              ⟨1, 1, fun _ _ => none, fun _ _ => defaultStyle, fun _ => none,
                fun _ => none, []⟩),
           ((⟨"report".data ++ ".xlsx".data⟩ : String),
            final_sheet ⟨[("Device Problem", [some (Cell.str "Fracture")])], 1⟩
              ⟨1, 1, fun _ _ => none, fun _ _ => defaultStyle, fun _ => none,
                fun _ => none, []⟩)]) :=
  ⟨by decide, by decide, claim7_amended_theorem "report".data "20250101_120000" _ _
    (by decide) (by decide)⟩

/-- C10 (amended): for a validated file with at least one candidate value
in which every candidate indicator name is already covered (the computed
dictionary is empty), per-file processing returns success, leaves the
in-memory sheet untouched, and performs no save at all. -/
theorem claim10_amended_theorem (file_path timestamp : String) (df : Frame) (ws : Sheet)
    (hvals : ¬((get_unique_values df ["Device Problem"]).1 = []
      ∧ (get_unique_values df ["Patient Problem"]).1 = []
      ∧ (get_unique_values df ["Patient Outcome"]).1 = []))
    (hbd : pipeline_binary_data df = []) :
    process_events file_path timestamp df ws = (true, ws, []) := by
  unfold process_events
  rw [if_neg hvals, if_pos hbd]

/-- C10 (counterexample): a validated file whose matching column holds no
non-null values at all also computes an empty dictionary, but processing
then reports failure, not success (the claim's "returns success" fails on
this input). -/
theorem claim10_counterexample :
    (validate_maude_file
        [("m.xlsx", ⟨[("Events", ⟨[("Device Problem", [none])], 1⟩)]⟩)] "m.xlsx").1 = true
    ∧ pipeline_binary_data ⟨[("Device Problem", [none])], 1⟩ = []
    ∧ (process_events "m.xlsx" "20250101_120000" ⟨[("Device Problem", [none])], 1⟩
        ⟨1, 1, fun _ _ => none, fun _ _ => defaultStyle, fun _ => none,
          fun _ => none, []⟩).1 = false :=
  ⟨by decide, by decide, by decide⟩

theorem claim10_witness :
    ¬((get_unique_values ⟨[("Device Problem", [some (Cell.str "Fracture")]),
          ("Device_Fracture", [some (Cell.int 1)])], 1⟩ ["Device Problem"]).1 = []
      ∧ (get_unique_values ⟨[("Device Problem", [some (Cell.str "Fracture")]),
          ("Device_Fracture", [some (Cell.int 1)])], 1⟩ ["Patient Problem"]).1 = []
      ∧ (get_unique_values ⟨[("Device Problem", [some (Cell.str "Fracture")]),
          ("Device_Fracture", [some (Cell.int 1)])], 1⟩ ["Patient Outcome"]).1 = [])
    ∧ pipeline_binary_data ⟨[("Device Problem", [some (Cell.str "Fracture")]),
        ("Device_Fracture", [some (Cell.int 1)])], 1⟩ = []
    ∧ process_events "m.xlsx" "20250101_120000"
        ⟨[("Device Problem", [some (Cell.str "Fracture")]),
          ("Device_Fracture", [some (Cell.int 1)])], 1⟩
        ⟨1, 2, fun _ _ => none, fun _ _ => defaultStyle, fun _ => none, fun _ => none, []⟩
      = (true, ⟨1, 2, fun _ _ => none, fun _ _ => defaultStyle, fun _ => none,
          fun _ => none, []⟩, []) :=
  ⟨by decide, by decide, claim10_amended_theorem _ _ _ _ (by decide) (by decide)⟩

/-- C1 (counterexample): two distinct device-problem values, `A B` and
`A/B`, sanitise to the same name `Device_A_B`.  The builder produces a
single column under that name holding the rows of the later value, so no
column's rows match the earlier value `A B` (its any-column indicator
would be `[1, 0]`, but the only produced column holds `[0, 1]`). -/
theorem claim1_counterexample :
    get_unique_values ⟨[("Device Problem",
        [some (Cell.str "A B"), some (Cell.str "A/B")])], 2⟩ ["Device Problem"]
      = ([Cell.str "A B", Cell.str "A/B"], ["Device Problem"])
    ∧ create_binary_columns
        ⟨[("Device Problem", [some (Cell.str "A B"), some (Cell.str "A/B")])], 2⟩
        [Cell.str "A B", Cell.str "A/B"] [] [] ["Device Problem"] [] [] []
      = [("Device_A_B", [0, 1])]
    ∧ binaryColName "Device_" (Cell.str "A B") = "Device_A_B"
    ∧ eqAnyIndicator ⟨[("Device Problem",
        [some (Cell.str "A B"), some (Cell.str "A/B")])], 2⟩
        ["Device Problem"] (Cell.str "A B") = [1, 0]
    ∧ ([0, 1] : List Nat) ≠ [1, 0] :=
  ⟨by decide, by decide, by decide, by decide, by decide⟩

/-- C1 (amended): provided distinct values of a category sanitise to
distinct names, the builder produces, for every value of that category
whose sanitised name is not already present, exactly one indicator column
under that name, its entries being 1 exactly on the rows where any of the
category's source columns holds the value; names already present are
never produced. -/
theorem claim1_amended_theorem (df : Frame) (dv pv ov : List Cell)
    (dc pc oc ex : List String) (pfx : String) (values : List Cell) (cols : List String)
    (hcat : (pfx = "Device_" ∧ values = dv ∧ cols = dc)
      ∨ (pfx = "Patient_" ∧ values = pv ∧ cols = pc)
      ∨ (pfx = "Outcome_" ∧ values = ov ∧ cols = oc))
    (hinj : ∀ a ∈ values, ∀ b ∈ values, sanitizeCell b = sanitizeCell a → b = a)
    (v : Cell) (hv : v ∈ values) (hnew : binaryColName pfx v ∉ ex) :
    ((create_binary_columns df dv pv ov dc pc oc ex).map Prod.fst).count
        (binaryColName pfx v) = 1
    ∧ dictFind (create_binary_columns df dv pv ov dc pc oc ex) (binaryColName pfx v)
        = some (eqAnyIndicator df cols v)
    ∧ (∀ i, i < df.nrows →
        ((eqAnyIndicator df cols v).getD i 0 = 1
          ↔ ∃ c ∈ cols, (df.getCol c).getD i none = some v))
    ∧ (∀ k ∈ ex, k ∉ (create_binary_columns df dv pv ov dc pc oc ex).map Prod.fst) := by
  have hfind : dictFind (create_binary_columns df dv pv ov dc pc oc ex)
      (binaryColName pfx v) = some (eqAnyIndicator df cols v) := by
    unfold create_binary_columns
    rcases hcat with ⟨hp, hval, hcol⟩ | ⟨hp, hval, hcol⟩ | ⟨hp, hval, hcol⟩ <;>
      subst hp <;> subst hval <;> subst hcol
    · have hne_o : ∀ w ∈ ov, binaryColName "Outcome_" w ≠ binaryColName "Device_" v :=
        fun w _ h => device_ne_outcome (sanitizeCell v) (sanitizeCell w) h.symm
      have hne_p : ∀ w ∈ pv, binaryColName "Patient_" w ≠ binaryColName "Device_" v :=
        fun w _ h => device_ne_patient (sanitizeCell v) (sanitizeCell w) h.symm
      rw [addCategory_find_preserve hne_o, addCategory_find_preserve hne_p]
      exact addCategory_find_self hinj hv hnew
    · have hne_o : ∀ w ∈ ov, binaryColName "Outcome_" w ≠ binaryColName "Patient_" v :=
        fun w _ h => patient_ne_outcome (sanitizeCell v) (sanitizeCell w) h.symm
      rw [addCategory_find_preserve hne_o]
      exact addCategory_find_self hinj hv hnew
    · exact addCategory_find_self hinj hv hnew
  refine ⟨?_, hfind, ?_, ?_⟩
  · exact List.count_eq_one_of_mem (create_keys_nodup df dv pv ov dc pc oc ex)
      (dictFind_some_mem_keys hfind)
  · intro i hi
    exact eqAnyIndicator_getD hi
  · intro k hk hmem
    exact (create_keys_cases hmem).2 hk

theorem claim1_witness :
    (∀ a ∈ [Cell.str "X Y"], ∀ b ∈ [Cell.str "X Y"],
        sanitizeCell b = sanitizeCell a → b = a)
    ∧ Cell.str "X Y" ∈ [Cell.str "X Y"]
    ∧ binaryColName "Device_" (Cell.str "X Y") ∉ ([] : List String)
    ∧ (((create_binary_columns ⟨[("Device Problem", [some (Cell.str "X Y"), none])], 2⟩
          [Cell.str "X Y"] [] [] ["Device Problem"] [] [] []).map Prod.fst).count
            (binaryColName "Device_" (Cell.str "X Y")) = 1
      ∧ dictFind (create_binary_columns ⟨[("Device Problem",
            [some (Cell.str "X Y"), none])], 2⟩
          [Cell.str "X Y"] [] [] ["Device Problem"] [] [] [])
          (binaryColName "Device_" (Cell.str "X Y"))
        = some (eqAnyIndicator ⟨[("Device Problem", [some (Cell.str "X Y"), none])], 2⟩
            ["Device Problem"] (Cell.str "X Y"))
      ∧ (∀ i, i < (⟨[("Device Problem", [some (Cell.str "X Y"), none])], 2⟩ : Frame).nrows →
          ((eqAnyIndicator ⟨[("Device Problem", [some (Cell.str "X Y"), none])], 2⟩
              ["Device Problem"] (Cell.str "X Y")).getD i 0 = 1
            ↔ ∃ c ∈ ["Device Problem"],
              ((⟨[("Device Problem", [some (Cell.str "X Y"), none])], 2⟩ : Frame).getCol
                  c).getD i none = some (Cell.str "X Y")))
      ∧ (∀ k ∈ ([] : List String),
          k ∉ (create_binary_columns ⟨[("Device Problem",
              [some (Cell.str "X Y"), none])], 2⟩
            [Cell.str "X Y"] [] [] ["Device Problem"] [] [] []).map Prod.fst)) :=
  ⟨by decide, by decide, by decide,
    claim1_amended_theorem ⟨[("Device Problem", [some (Cell.str "X Y"), none])], 2⟩
      [Cell.str "X Y"] [] [] ["Device Problem"] [] [] [] "Device_" [Cell.str "X Y"]
      ["Device Problem"] (Or.inl ⟨rfl, rfl, rfl⟩) (by decide) (Cell.str "X Y")
      (by decide) (by decide)⟩

/-- C9: the extractor returns the matching column names (those whose name
contains one of the patterns, in pattern-major column order) together
with a sorted, duplicate-free list holding exactly the non-null values
found in those columns; being a pure function of its input, its output
order is the sorted order every time. -/
theorem claim9_theorem (df : Frame) (patterns : List String) :
    List.Sorted Cell.le (get_unique_values df patterns).1
    ∧ (get_unique_values df patterns).1.Nodup
    ∧ (∀ v : Cell, v ∈ (get_unique_values df patterns).1
        ↔ ∃ c ∈ (get_unique_values df patterns).2, some v ∈ df.getCol c)
    ∧ (∀ c : String, c ∈ (get_unique_values df patterns).2
        ↔ ∃ pat ∈ patterns, c ∈ df.colNames ∧ strContains c pat = true) := by
  refine ⟨?_, ?_, ?_, ?_⟩
  · exact List.sorted_insertionSort Cell.le _
  · exact ((List.perm_insertionSort Cell.le _).nodup_iff).mpr (List.nodup_dedup _)
  · intro v
    show v ∈ List.insertionSort Cell.le _ ↔ _
    rw [(List.perm_insertionSort Cell.le _).mem_iff, List.mem_dedup, List.mem_flatten]
    constructor
    · rintro ⟨l, hl, hvl⟩
      rcases List.mem_map.mp hl with ⟨c, hc, hcl⟩
      subst hcl
      rcases List.mem_filterMap.mp hvl with ⟨a, ha, hav⟩
      simp only [id] at hav
      subst hav
      exact ⟨c, hc, ha⟩
    · rintro ⟨c, hc, hvc⟩
      exact ⟨(df.getCol c).filterMap id, List.mem_map.mpr ⟨c, hc, rfl⟩,
        List.mem_filterMap.mpr ⟨some v, hvc, rfl⟩⟩
  · intro c
    exact matching_columns_mem

/-- C4: the cleared-and-rewritten sheet holds the header row followed by
the data rows in original order; within the original column range every
header name and every cell value equals the original frame's, position
for position, and the indicator columns appear after the last original
column, in dictionary order, with their computed values. -/
theorem claim4_theorem (df : Frame) (bd : List (String × List Nat)) (ws : Sheet) :
    (rewriteSheet ws (writeFrame (withBinary df bd))).maxRow = df.nrows + 1
    ∧ (∀ c, 1 ≤ c → c ≤ df.columns.length →
        (rewriteSheet ws (writeFrame (withBinary df bd))).val 1 c
          = some (Cell.str (df.columns.getD (c - 1) ("", [])).1))
    ∧ (∀ j, j < bd.length →
        (rewriteSheet ws (writeFrame (withBinary df bd))).val 1 (df.columns.length + 1 + j)
          = some (Cell.str (bd.getD j ("", [])).1))
    ∧ (∀ r c, 2 ≤ r → r ≤ df.nrows + 1 → 1 ≤ c → c ≤ df.columns.length →
        (rewriteSheet ws (writeFrame (withBinary df bd))).val r c
          = (df.columns.getD (c - 1) ("", [])).2.getD (r - 2) none)
    ∧ (∀ r j, 2 ≤ r → r ≤ df.nrows + 1 → j < bd.length →
        (rewriteSheet ws (writeFrame (withBinary df bd))).val r (df.columns.length + 1 + j)
          = ((bd.getD j ("", [])).2.map (fun n => some (Cell.int n))).getD (r - 2) none) := by
  have hlen : (withBinary df bd).columns.length = df.columns.length + bd.length :=
    withBinary_columns_length df bd
  refine ⟨?_, ?_, ?_, ?_, ?_⟩
  · show (writeFrame (withBinary df bd)).length = df.nrows + 1
    exact writeFrame_length _
  · intro c hc1 hc2
    show ((writeFrame (withBinary df bd)).getD 0 []).getD (c - 1) none = _
    rw [writeFrame_getD_zero]
    rw [getD_map_lt (by omega) none ("", [])]
    show some (Cell.str ((df.columns ++ _).getD (c - 1) ("", [])).1) = _
    rw [getD_append_lt (by omega)]
  · intro j hj
    show ((writeFrame (withBinary df bd)).getD 0 []).getD (df.columns.length + 1 + j - 1)
        none = _
    rw [writeFrame_getD_zero]
    have hidx : df.columns.length + 1 + j - 1 = df.columns.length + j := by omega
    rw [hidx, getD_map_lt (by omega) none ("", [])]
    show some (Cell.str ((df.columns ++ bd.map _).getD (df.columns.length + j)
      ("", [])).1) = _
    rw [getD_append_right_add, getD_map_lt hj ("", []) ("", [])]
  · intro r c hr2 hr hc1 hc2
    have hi : r - 2 < df.nrows := by omega
    have hr1 : r - 1 = (r - 2) + 1 := by omega
    show ((writeFrame (withBinary df bd)).getD (r - 1) []).getD (c - 1) none = _
    rw [hr1, writeFrame_getD_succ (withBinary df bd)
      (show r - 2 < (withBinary df bd).nrows from hi)]
    rw [getD_map_lt (by omega) none ("", [])]
    show ((df.columns ++ _).getD (c - 1) ("", [])).2.getD (r - 2) none = _
    rw [getD_append_lt (by omega)]
  · intro r j hr2 hr hj
    have hi : r - 2 < df.nrows := by omega
    have hr1 : r - 1 = (r - 2) + 1 := by omega
    show ((writeFrame (withBinary df bd)).getD (r - 1) []).getD
        (df.columns.length + 1 + j - 1) none = _
    rw [hr1, writeFrame_getD_succ (withBinary df bd)
      (show r - 2 < (withBinary df bd).nrows from hi)]
    have hidx : df.columns.length + 1 + j - 1 = df.columns.length + j := by omega
    rw [hidx, getD_map_lt (by omega) none ("", [])]
    show ((df.columns ++ bd.map _).getD (df.columns.length + j) ("", [])).2.getD
        (r - 2) none = _
    rw [getD_append_right_add, getD_map_lt hj ("", []) ("", [])]

theorem claim4_witness :
    (2 ≤ 2 ∧ 2 ≤ (⟨[("Device Problem", [some (Cell.str "F")])], 1⟩ : Frame).nrows + 1
      ∧ 1 ≤ 1 ∧ 1 ≤ (⟨[("Device Problem", [some (Cell.str "F")])], 1⟩ : Frame).columns.length)
    ∧ (rewriteSheet
        ⟨1, 1, fun _ _ => none, fun _ _ => defaultStyle, fun _ => none, fun _ => none, []⟩
        (writeFrame (withBinary ⟨[("Device Problem", [some (Cell.str "F")])], 1⟩
          [("Device_F", [1])]))).val 2 1
      = ((⟨[("Device Problem", [some (Cell.str "F")])], 1⟩ : Frame).columns.getD 0
          ("", [])).2.getD 0 none :=
  ⟨⟨by decide, by decide, by decide, by decide⟩,
    (claim4_theorem ⟨[("Device Problem", [some (Cell.str "F")])], 1⟩ [("Device_F", [1])]
      ⟨1, 1, fun _ _ => none, fun _ _ => defaultStyle, fun _ => none,
        fun _ => none, []⟩).2.2.2.1 2 1 (by decide) (by decide) (by decide) (by decide)⟩

/-! ## Helper lemmas: projections of the styling passes -/

theorem restore_val (ws : Sheet) (st : Nat → Nat → Option CellStyle)
    (hh : Nat → Option (Option Nat)) (ww : String → Option (Option Nat)) (n : Nat) :
    (restore_original_formatting ws st hh ww n).val = ws.val := rfl

theorem apply_val (ws : Sheet) (nrows orig : Nat) (bd : List (String × List Nat)) :
    (apply_binary_formatting ws nrows orig bd).val = ws.val := rfl

theorem restore_style_outside {ws : Sheet} {st : Nat → Nat → Option CellStyle}
    {hh : Nat → Option (Option Nat)} {ww : String → Option (Option Nat)}
    {origCount r c : Nat}
    (h : ¬(1 ≤ r ∧ r ≤ ws.maxRow ∧ 1 ≤ c ∧ c ≤ origCount)) :
    (restore_original_formatting ws st hh ww origCount).style r c = ws.style r c := by
  unfold restore_original_formatting
  dsimp only
  rw [if_neg h]

theorem apply_style_header {ws : Sheet} {nrows orig : Nat}
    {bd : List (String × List Nat)} {c : Nat}
    (hc : orig + 1 ≤ c ∧ c ≤ orig + bd.length) :
    (apply_binary_formatting ws nrows orig bd).style 1 c
      = { ws.style 1 c with font := bold_font } := by
  unfold apply_binary_formatting
  dsimp only
  rw [if_pos hc, if_pos rfl]

theorem apply_style_data {ws : Sheet} {nrows orig : Nat}
    {bd : List (String × List Nat)} {r c : Nat}
    (hc : orig + 1 ≤ c ∧ c ≤ orig + bd.length) (hr1 : r ≠ 1)
    (hr : 2 ≤ r ∧ r ≤ nrows + 1) :
    (apply_binary_formatting ws nrows orig bd).style r c
      = (if ws.val r c = some (Cell.int 1) then { ws.style r c with fill := green_fill }
         else if ws.val r c = some (Cell.int 0) then { ws.style r c with fill := red_fill }
         else ws.style r c) := by
  unfold apply_binary_formatting
  dsimp only
  rw [if_pos hc, if_neg hr1, if_pos hr]

/-- C6: after the formatting pass, every data cell of the indicator-column
range whose value is the integer 1 carries the green fill, every one whose
value is the integer 0 carries the red fill, any other value leaves the
default (no) fill; every indicator header cell carries the bold font and
no fill. -/
theorem claim6_theorem (df : Frame) (ws : Sheet) (r c : Nat)
    (hr2 : 2 ≤ r) (hr : r ≤ df.nrows + 1)
    (hc1 : df.columns.length + 1 ≤ c)
    (hc2 : c ≤ df.columns.length + (pipeline_binary_data df).length) :
    ((final_sheet df ws).style r c).fill
      = (if (final_sheet df ws).val r c = some (Cell.int 1) then green_fill
         else if (final_sheet df ws).val r c = some (Cell.int 0) then red_fill
         else defaultStyle.fill)
    ∧ ((final_sheet df ws).style 1 c).font = bold_font
    ∧ ((final_sheet df ws).style 1 c).fill = defaultStyle.fill := by
  have hout : ∀ r' : Nat,
      (restore_original_formatting
        (rewriteSheet ws (writeFrame (withBinary df (pipeline_binary_data df))))
        (capture_original_styling ws).1 (capture_original_styling ws).2.1
        (capture_original_styling ws).2.2 df.columns.length).style r' c
        = defaultStyle := by
    intro r'
    rw [restore_style_outside (by rintro ⟨-, -, -, hcle⟩; omega)]
    rfl
  refine ⟨?_, ?_, ?_⟩
  · have hv : (final_sheet df ws).val
        = (rewriteSheet ws (writeFrame (withBinary df (pipeline_binary_data df)))).val := rfl
    rw [hv]
    show ((apply_binary_formatting _ df.nrows df.columns.length
        (pipeline_binary_data df)).style r c).fill = _
    rw [apply_style_data ⟨hc1, hc2⟩ (by omega) ⟨hr2, hr⟩]
    rw [restore_val, hout r]
    split_ifs <;> rfl
  · show ((apply_binary_formatting _ df.nrows df.columns.length
        (pipeline_binary_data df)).style 1 c).font = _
    rw [apply_style_header ⟨hc1, hc2⟩]
  · show ((apply_binary_formatting _ df.nrows df.columns.length
        (pipeline_binary_data df)).style 1 c).fill = _
    rw [apply_style_header ⟨hc1, hc2⟩]
    rw [hout 1]

theorem claim6_witness :
    (2 ≤ 2 ∧ 2 ≤ (⟨[("Device Problem", [some (Cell.str "F")])], 1⟩ : Frame).nrows + 1
      ∧ (⟨[("Device Problem", [some (Cell.str "F")])], 1⟩ : Frame).columns.length + 1 ≤ 2
      ∧ 2 ≤ (⟨[("Device Problem", [some (Cell.str "F")])], 1⟩ : Frame).columns.length
          + (pipeline_binary_data ⟨[("Device Problem", [some (Cell.str "F")])], 1⟩).length)
    ∧ (((final_sheet ⟨[("Device Problem", [some (Cell.str "F")])], 1⟩
          ⟨1, 1, fun _ _ => none, fun _ _ => defaultStyle, fun _ => none,
            fun _ => none, []⟩).style 2 2).fill
        = (if (final_sheet ⟨[("Device Problem", [some (Cell.str "F")])], 1⟩
              ⟨1, 1, fun _ _ => none, fun _ _ => defaultStyle, fun _ => none,
                fun _ => none, []⟩).val 2 2 = some (Cell.int 1) then green_fill
           else if (final_sheet ⟨[("Device Problem", [some (Cell.str "F")])], 1⟩
              ⟨1, 1, fun _ _ => none, fun _ _ => defaultStyle, fun _ => none,
                fun _ => none, []⟩).val 2 2 = some (Cell.int 0) then red_fill
           else defaultStyle.fill)
      ∧ ((final_sheet ⟨[("Device Problem", [some (Cell.str "F")])], 1⟩
          ⟨1, 1, fun _ _ => none, fun _ _ => defaultStyle, fun _ => none,
            fun _ => none, []⟩).style 1 2).font = bold_font
      ∧ ((final_sheet ⟨[("Device Problem", [some (Cell.str "F")])], 1⟩
          ⟨1, 1, fun _ _ => none, fun _ _ => defaultStyle, fun _ => none,
            fun _ => none, []⟩).style 1 2).fill = defaultStyle.fill) :=
  ⟨⟨by decide, by decide, by decide, by decide⟩,
    claim6_theorem ⟨[("Device Problem", [some (Cell.str "F")])], 1⟩
      ⟨1, 1, fun _ _ => none, fun _ _ => defaultStyle, fun _ => none, fun _ => none, []⟩
      2 2 (by decide) (by decide) (by decide) (by decide)⟩

/-- C5 (counterexample): the claim says only absent (unset) heights are
skipped, but the source skips every falsy height: a captured height of 0
(a hidden row) is not reapplied — after the rewrite the row's height is
unset, not 0. -/
theorem claim5_counterexample :
    (capture_original_styling ⟨1, 1, fun _ _ => none, fun _ _ => defaultStyle,
        fun _ => some 0, fun _ => none, []⟩).2.1 1 = some (some 0)
    ∧ (restore_original_formatting
        (rewriteSheet ⟨1, 1, fun _ _ => none, fun _ _ => defaultStyle,
          fun _ => some 0, fun _ => none, []⟩ [[some (Cell.str "h")]])
        (capture_original_styling ⟨1, 1, fun _ _ => none, fun _ _ => defaultStyle,
          fun _ => some 0, fun _ => none, []⟩).1
        (capture_original_styling ⟨1, 1, fun _ _ => none, fun _ _ => defaultStyle,
          fun _ => some 0, fun _ => none, []⟩).2.1
        (capture_original_styling ⟨1, 1, fun _ _ => none, fun _ _ => defaultStyle,
          fun _ => some 0, fun _ => none, []⟩).2.2 1).height 1 = none
    ∧ (some (some 0) : Option (Option Nat)) ≠ some none :=
  ⟨by decide, by decide, by decide⟩

/-- C5 (amended): for every position whose column lies in the original
range and whose row and column fall inside both the rewritten and the
captured rectangle, the restored style equals the captured one; captured
row heights and column widths are reapplied when they are set and
nonzero, while entries that are absent or falsy (unset, or zero, which
the source's truthiness test treats the same) are skipped, leaving the
sheet's current value rather than zeroing it. -/
theorem claim5_amended_theorem (ws0 ws1 : Sheet) (origCount : Nat) :
    (∀ r c, 1 ≤ r → r ≤ ws1.maxRow → r ≤ ws0.maxRow → 1 ≤ c → c ≤ origCount →
      c ≤ ws0.maxCol →
      (restore_original_formatting ws1 (capture_original_styling ws0).1
        (capture_original_styling ws0).2.1 (capture_original_styling ws0).2.2
        origCount).style r c = ws0.style r c)
    ∧ (∀ r h, 1 ≤ r → r ≤ ws1.maxRow → r ≤ ws0.maxRow → ws0.height r = some h →
        h ≠ 0 →
        (restore_original_formatting ws1 (capture_original_styling ws0).1
          (capture_original_styling ws0).2.1 (capture_original_styling ws0).2.2
          origCount).height r = some h)
    ∧ (∀ r, truthyEntry ((capture_original_styling ws0).2.1 r) = false →
        (restore_original_formatting ws1 (capture_original_styling ws0).1
          (capture_original_styling ws0).2.1 (capture_original_styling ws0).2.2
          origCount).height r = ws1.height r)
    ∧ (∀ l w, l ∈ ws0.dimLetters → ws0.width l = some w → w ≠ 0 →
        (restore_original_formatting ws1 (capture_original_styling ws0).1
          (capture_original_styling ws0).2.1 (capture_original_styling ws0).2.2
          origCount).width l = some w)
    ∧ (∀ l, truthyEntry ((capture_original_styling ws0).2.2 l) = false →
        (restore_original_formatting ws1 (capture_original_styling ws0).1
          (capture_original_styling ws0).2.1 (capture_original_styling ws0).2.2
          origCount).width l = ws1.width l) := by
  refine ⟨?_, ?_, ?_, ?_, ?_⟩
  · intro r c h1 h2 h3 h4 h5 h6
    unfold restore_original_formatting capture_original_styling
    dsimp only
    rw [if_pos ⟨h1, h2, h4, h5⟩, if_pos ⟨h1, h3, h4, h6⟩]
  · intro r h h1 h2 h3 hh hne
    unfold restore_original_formatting capture_original_styling
    dsimp only
    have hcap : (if 1 ≤ r ∧ r ≤ ws0.maxRow then some (ws0.height r) else none)
        = some (ws0.height r) := if_pos ⟨h1, h3⟩
    rw [hcap, hh]
    have htr : truthyEntry (some (some h)) = true := by
      simp [truthyEntry, hne]
    rw [if_pos ⟨h1, h2, htr⟩]
    rfl
  · intro r htr
    unfold restore_original_formatting
    dsimp only
    rw [if_neg]
    rintro ⟨-, -, ht⟩
    rw [htr] at ht
    cases ht
  · intro l w hl hw hne
    unfold restore_original_formatting capture_original_styling
    dsimp only
    have hcontains : ws0.dimLetters.contains l = true := List.elem_iff.mpr hl
    have hcap : (if ws0.dimLetters.contains l = true then some (ws0.width l) else none)
        = some (ws0.width l) := if_pos hcontains
    rw [hcap, hw]
    have htr : truthyEntry (some (some w)) = true := by
      simp [truthyEntry, hne]
    rw [if_pos htr]
    rfl
  · intro l htr
    unfold restore_original_formatting
    dsimp only
    rw [if_neg]
    intro ht
    rw [htr] at ht
    cases ht

theorem claim5_witness :
    ((1 : Nat) ≤ 1
      ∧ 1 ≤ (rewriteSheet ⟨1, 1, fun _ _ => some (Cell.str "x"),
          fun _ _ => CellStyle.mk "f" "g" "a" "b" "n", fun _ => some 5, fun _ => some 7,
          ["A"]⟩ [[some (Cell.str "x")]]).maxRow
      ∧ (⟨1, 1, fun _ _ => some (Cell.str "x"),
          fun _ _ => CellStyle.mk "f" "g" "a" "b" "n", fun _ => some 5, fun _ => some 7,
          ["A"]⟩ : Sheet).height 1 = some 5 ∧ (5 : Nat) ≠ 0
      ∧ "A" ∈ (⟨1, 1, fun _ _ => some (Cell.str "x"),
          fun _ _ => CellStyle.mk "f" "g" "a" "b" "n", fun _ => some 5, fun _ => some 7,
          ["A"]⟩ : Sheet).dimLetters)
    ∧ (restore_original_formatting
        (rewriteSheet ⟨1, 1, fun _ _ => some (Cell.str "x"),
          fun _ _ => CellStyle.mk "f" "g" "a" "b" "n", fun _ => some 5, fun _ => some 7,
          ["A"]⟩ [[some (Cell.str "x")]])
        (capture_original_styling ⟨1, 1, fun _ _ => some (Cell.str "x"),
          fun _ _ => CellStyle.mk "f" "g" "a" "b" "n", fun _ => some 5, fun _ => some 7,
          ["A"]⟩).1
        (capture_original_styling ⟨1, 1, fun _ _ => some (Cell.str "x"),
          fun _ _ => CellStyle.mk "f" "g" "a" "b" "n", fun _ => some 5, fun _ => some 7,
          ["A"]⟩).2.1
        (capture_original_styling ⟨1, 1, fun _ _ => some (Cell.str "x"),
          fun _ _ => CellStyle.mk "f" "g" "a" "b" "n", fun _ => some 5, fun _ => some 7,
          ["A"]⟩).2.2 1).height 1 = some 5 :=
  ⟨⟨by decide, by decide, by decide, by decide, by decide⟩,
    (claim5_amended_theorem ⟨1, 1, fun _ _ => some (Cell.str "x"),
        fun _ _ => CellStyle.mk "f" "g" "a" "b" "n", fun _ => some 5, fun _ => some 7,
        ["A"]⟩
      (rewriteSheet ⟨1, 1, fun _ _ => some (Cell.str "x"),
        fun _ _ => CellStyle.mk "f" "g" "a" "b" "n", fun _ => some 5, fun _ => some 7,
        ["A"]⟩ [[some (Cell.str "x")]]) 1).2.1 1 5 (by decide) (by decide) (by decide)
      (by decide) (by decide)⟩

theorem append_ne_of_ne_length {a b : String} (h : a.data.length ≠ b.data.length)
    (p : String) : a ++ p ≠ b ++ p := by
  intro he
  have hl := congrArg (fun s => s.data.length) he
  simp only [String.data_append, List.length_append] at hl
  omega

/-- C8: validation passes exactly when the path exists, its lower-cased
name ends in the container extension, the stored workbook has an `Events`
sheet, and that sheet has at least one column matching one of the three
category patterns; each of the four failure conditions produces its own
distinct message.  The model validator is a pure function — the probe
mutates nothing, as in the source. -/
theorem claim8_theorem (files : List (String × Workbook)) (path : String) :
    ((validate_maude_file files path).1 = true ↔
      ∃ wb, lookupFile files path = some wb
        ∧ strEnds (lowerStr path) ".xlsx" = true
        ∧ ∃ df, sheetFind wb "Events" = some df
          ∧ ¬((Frame.colNames df).filter (fun c => strContains c "Device Problem") = []
            ∧ (Frame.colNames df).filter (fun c => strContains c "Patient Problem") = []
            ∧ (Frame.colNames df).filter (fun c => strContains c "Patient Outcome") = []))
    ∧ (lookupFile files path = none →
        validate_maude_file files path = (false, "File not found: " ++ path))
    ∧ (∀ wb, lookupFile files path = some wb →
        strEnds (lowerStr path) ".xlsx" = false →
        validate_maude_file files path = (false, "Not an Excel file: " ++ path))
    ∧ (∀ wb, lookupFile files path = some wb →
        strEnds (lowerStr path) ".xlsx" = true → sheetFind wb "Events" = none →
        validate_maude_file files path = (false, "No 'Events' sheet found in " ++ path))
    ∧ (∀ wb df, lookupFile files path = some wb →
        strEnds (lowerStr path) ".xlsx" = true → sheetFind wb "Events" = some df →
        (Frame.colNames df).filter (fun c => strContains c "Device Problem") = [] →
        (Frame.colNames df).filter (fun c => strContains c "Patient Problem") = [] →
        (Frame.colNames df).filter (fun c => strContains c "Patient Outcome") = [] →
        validate_maude_file files path
          = (false, "No problem/outcome columns found in " ++ path))
    ∧ ("File not found: " ++ path ≠ "Not an Excel file: " ++ path
        ∧ "File not found: " ++ path ≠ "No 'Events' sheet found in " ++ path
        ∧ "File not found: " ++ path ≠ "No problem/outcome columns found in " ++ path
        ∧ "Not an Excel file: " ++ path ≠ "No 'Events' sheet found in " ++ path
        ∧ "Not an Excel file: " ++ path ≠ "No problem/outcome columns found in " ++ path
        ∧ "No 'Events' sheet found in " ++ path
            ≠ "No problem/outcome columns found in " ++ path) := by
  refine ⟨?_, ?_, ?_, ?_, ?_, ?_, ?_, ?_, ?_, ?_, ?_⟩
  · constructor
    · intro h
      unfold validate_maude_file at h
      cases hlf : lookupFile files path with
      | none => rw [hlf] at h; cases h
      | some wb =>
        rw [hlf] at h
        dsimp only at h
        cases hext : strEnds (lowerStr path) ".xlsx" with
        | false => rw [hext] at h; simp at h
        | true =>
          rw [hext] at h
          simp only [Bool.not_true, Bool.false_eq_true, if_false] at h
          cases hsf : sheetFind wb "Events" with
          | none => rw [hsf] at h; cases h
          | some df =>
            rw [hsf] at h
            dsimp only at h
            by_cases hc : (Frame.colNames df).filter
                  (fun c => strContains c "Device Problem") = []
                ∧ (Frame.colNames df).filter
                  (fun c => strContains c "Patient Problem") = []
                ∧ (Frame.colNames df).filter
                  (fun c => strContains c "Patient Outcome") = []
            · rw [if_pos hc] at h; cases h
            · exact ⟨wb, rfl, rfl, df, hsf, hc⟩
    · rintro ⟨wb, hlf, hext, df, hsf, hne⟩
      unfold validate_maude_file
      rw [hlf]
      dsimp only
      rw [hext]
      simp only [Bool.not_true, Bool.false_eq_true, if_false]
      rw [hsf]
      dsimp only
      rw [if_neg hne]
  · intro h
    unfold validate_maude_file
    rw [h]
  · intro wb hwb hext
    unfold validate_maude_file
    rw [hwb]
    dsimp only
    rw [hext]
    simp
  · intro wb hwb hext hsf
    unfold validate_maude_file
    rw [hwb]
    dsimp only
    rw [hext]
    simp only [Bool.not_true, Bool.false_eq_true, if_false]
    rw [hsf]
  · intro wb df hwb hext hsf h1 h2 h3
    unfold validate_maude_file
    rw [hwb]
    dsimp only
    rw [hext]
    simp only [Bool.not_true, Bool.false_eq_true, if_false]
    rw [hsf]
    dsimp only
    rw [if_pos ⟨h1, h2, h3⟩]
  · exact append_ne_of_ne_length (by decide) path
  · exact append_ne_of_ne_length (by decide) path
  · exact append_ne_of_ne_length (by decide) path
  · exact append_ne_of_ne_length (by decide) path
  · exact append_ne_of_ne_length (by decide) path
  · exact append_ne_of_ne_length (by decide) path

theorem claim8_witness :
    (validate_maude_file
        [("m.xlsx", ⟨[("Events", ⟨[("Device Problem", [none])], 1⟩)]⟩)] "m.xlsx").1
      = true :=
  (claim8_theorem [("m.xlsx", ⟨[("Events", ⟨[("Device Problem", [none])], 1⟩)]⟩)]
      "m.xlsx").1.mpr
    ⟨⟨[("Events", ⟨[("Device Problem", [none])], 1⟩)]⟩, by decide, by decide,
      ⟨[("Device Problem", [none])], 1⟩, by decide, by decide⟩

end Maude
